/-
  Verification development for the liteCore kernel.

  Each section shallowly embeds one subsystem of the C source and proves
  (or refutes) the specification claims about it.  Machine integers are
  modelled as `Nat` with explicit masking where overflow matters; memory
  regions are modelled as functions or finite sets; fallible operations
  return `Option`.
-/
import Mathlib

namespace LiteCore

/-! ## Usermode entry (src/kernel/syscall.h, `task_enter_usermode`)

The assembly routine builds the five-quadword `iretq` frame by pushing,
in order, SS, the user RSP, RFLAGS (with IF forced), CS and RIP, then
loads CR3 and executes `iretq`.  We model the frame it constructs and
the CR3 value it loads. -/

/-- The five-slot `iretq` frame, listed in push order (SS pushed first). -/
structure IretqFrame where
  ss : Nat
  rsp : Nat
  rflags : Nat
  cs : Nat
  rip : Nat
deriving Repr, DecidableEq

/-- Result of `task_enter_usermode`: the frame handed to `iretq` and the
value loaded into CR3.  `rflags0` is the RFLAGS value read by `pushfq`. -/
structure UsermodeEntry where
  frame : IretqFrame
  cr3 : Nat
deriving Repr, DecidableEq

/-- Embedding of `task_enter_usermode(entry, user_stack, page_directory)`
from src/src/kernel/syscall.h lines 205-227:
`push 0x23; push rsi; pushfq/or rax,0x200/push rax; push 0x1B; push rdi;
mov cr3, rdx; iretq`. -/
def task_enter_usermode (entry user_stack page_directory rflags0 : Nat) :
    UsermodeEntry :=
  { frame :=
    { ss := 0x23
      rsp := user_stack
      rflags := rflags0 ||| 0x200
      cs := 0x1B
      rip := entry }
    cr3 := page_directory }

end LiteCore

namespace LiteCore.Sched

/-! ## Scheduler (src/src/kernel/task/multi_task.c)

Tasks are identified by their tid; the idle task is tid 0.  The scheduler
state holds the current task, the task-state table and the FIFO ready
queue (`ready_queue_head`/`tail` modelled as a list).  The operations are
translated from `task_ready`, `task_schedule`, `task_schedule_from_irq`
and `task_exit`. -/

inductive TState where
  | ready
  | running
  | blocked
  | dead
deriving Repr, DecidableEq

structure SState where
  current : Nat
  st : Nat → TState
  queue : List Nat

/-- `task_ready`: set the task's state to READY and append it to the
ready-queue tail. -/
def taskReady (s : SState) (t : Nat) : SState :=
  { s with
    st := fun x => if x = t then TState.ready else s.st x
    queue := s.queue ++ [t] }

/-- Core of `task_schedule` / `task_schedule_from_irq` (both perform the
same state transition; they differ only in how the context is restored).
Pop the ready-queue head; if the queue was empty fall back to idle (tid 0)
unless the current task is a live idle, in which case nothing changes.
If the current task is RUNNING it is set READY and re-enqueued at the
tail; finally the chosen task becomes RUNNING and current. -/
def taskSchedule (s : SState) : SState :=
  let popped : Option Nat × List Nat :=
    match s.queue with
    | [] => (none, [])
    | n :: rest => (some n, rest)
  match popped with
  | (none, _) =>
    if s.st s.current = TState.dead ∨ s.current ≠ 0 then
      -- next_task := idle
      let s1 :=
        if s.st s.current = TState.running then
          { s with
            st := fun x => if x = s.current then TState.ready else s.st x
            queue := s.queue ++ [s.current] }
        else s
      { s1 with
        current := 0
        st := fun x => if x = 0 then TState.running else s1.st x }
    else
      s
  | (some n, rest) =>
    let s1 :=
      if s.st s.current = TState.running then
        { s with
          st := fun x => if x = s.current then TState.ready else s.st x
          queue := rest ++ [s.current] }
      else { s with queue := rest }
    { s1 with
      current := n
      st := fun x => if x = n then TState.running else s1.st x }

/-- `task_exit`: mark the current task DEAD, then reschedule. -/
def taskExit (s : SState) : SState :=
  taskSchedule
    { s with st := fun x => if x = s.current then TState.dead else s.st x }

/-- Initial scheduler state right after `task_init`: the idle task (tid 0)
is current and RUNNING, the ready queue is empty, and every other tid is
unused (modelled as BLOCKED, i.e. not runnable and not queued). -/
def initState : SState :=
  { current := 0
    st := fun x => if x = 0 then TState.running else TState.blocked
    queue := [] }

/-- Reachability by the scheduler operations.  `task_ready` is invoked by
the kernel only on freshly created tasks (task_create → task_ready), so
its argument is a task that is neither current nor already enqueued and
is not the idle TCB. -/
inductive Reach : SState → Prop where
  | init : Reach initState
  | ready {s} (t : Nat) : Reach s → t ≠ 0 → t ≠ s.current → t ∉ s.queue →
      Reach (taskReady s t)
  | sched {s} : Reach s → Reach (taskSchedule s)
  | exits {s} : Reach s → Reach (taskExit s)

end LiteCore.Sched

namespace LiteCore.Sched

/-- A state exhibiting the idle task on the ready queue: start from
`task_init`, make one task ready, and let the (running, idle) current
task schedule it. -/
def cexEnqueued : SState := taskSchedule (taskReady initState 1)

/-- Extending the trace: ready another task, then schedule again; the
head of the queue is now the idle TCB, which gets selected while the
queue is still nonempty. -/
def cexSelected : SState := taskSchedule (taskReady cexEnqueued 2)

theorem reach_cexEnqueued : Reach cexEnqueued :=
  Reach.sched (Reach.ready 1 Reach.init (by decide) (by decide) (by decide))

theorem reach_cexSelected : Reach cexSelected :=
  Reach.sched (Reach.ready 2 reach_cexEnqueued (by decide) (by decide)
    (by decide))

/-- The scheduler invariant that actually holds: the ready queue has no
duplicates, the current task is not on it, every queued task is READY
(so in particular the RUNNING task is never on the queue), and only the
current task can be RUNNING. -/
def Invariant (s : SState) : Prop :=
  s.queue.Nodup ∧ s.current ∉ s.queue ∧
  (∀ t ∈ s.queue, s.st t = TState.ready) ∧
  (∀ t, s.st t = TState.running → t = s.current)

theorem invariant_init : Invariant initState := by
  refine ⟨List.nodup_nil, by simp [initState], ?_, ?_⟩
  · intro t ht; simp [initState] at ht
  · intro t ht
    show t = 0
    by_cases h0 : t = 0
    · exact h0
    · simp [initState, h0] at ht

theorem invariant_ready {s : SState} (t : Nat) (h : Invariant s)
    (ht0 : t ≠ s.current) (htq : t ∉ s.queue) :
    Invariant (taskReady s t) := by
  obtain ⟨hnd, hcur, hready, hrun⟩ := h
  refine ⟨?_, ?_, ?_, ?_⟩
  · rw [taskReady, List.nodup_append]
    refine ⟨hnd, List.nodup_singleton t, ?_⟩
    intro a ha hb
    rw [List.mem_singleton] at hb
    subst hb
    exact htq ha
  · show s.current ∉ s.queue ++ [t]
    rw [List.mem_append, List.mem_singleton]
    rintro (hc | hc)
    · exact hcur hc
    · exact ht0 hc.symm
  · intro u hu
    show (if u = t then TState.ready else s.st u) = TState.ready
    simp only [taskReady] at hu
    rw [List.mem_append, List.mem_singleton] at hu
    by_cases hut : u = t
    · simp [hut]
    · rcases hu with hu | hu
      · simpa [hut] using hready u hu
      · exact absurd hu hut
  · intro u hu
    show u = s.current
    simp only [taskReady] at hu
    by_cases hut : u = t
    · subst hut
      rw [if_pos rfl] at hu
      exact absurd hu (by decide)
    · rw [if_neg hut] at hu
      exact hrun u hu

theorem invariant_sched {s : SState} (h : Invariant s) :
    Invariant (taskSchedule s) := by
  obtain ⟨hnd, hcur, hready, hrun⟩ := h
  rcases hq : s.queue with _ | ⟨n, rest⟩
  · by_cases hc : s.st s.current = TState.dead ∨ s.current ≠ 0
    · by_cases hr : s.st s.current = TState.running
      · have hc0 : s.current ≠ 0 := by
          rcases hc with hc | hc
          · rw [hr] at hc; exact absurd hc (by decide)
          · exact hc
        refine ⟨?_, ?_, ?_, ?_⟩ <;>
          simp only [taskSchedule, hq, if_pos hc, if_pos hr]
        · exact List.nodup_singleton _
        · rw [List.nil_append, List.mem_singleton]
          intro h0
          exact hc0 h0.symm
        · intro u hu
          rw [List.nil_append, List.mem_singleton] at hu
          subst hu
          simp [if_neg hc0]
        · intro u hu
          by_cases h0 : u = 0
          · exact h0
          · rw [if_neg h0] at hu
            by_cases hus : u = s.current
            · rw [if_pos hus] at hu
              exact absurd hu (by decide)
            · rw [if_neg hus] at hu
              exact absurd (hrun u hu) hus
      · refine ⟨?_, ?_, ?_, ?_⟩ <;>
          simp only [taskSchedule, hq, if_pos hc, if_neg hr]
        · exact List.nodup_nil
        · exact List.not_mem_nil 0
        · intro u hu
          exact absurd hu (List.not_mem_nil u)
        · intro u hu
          by_cases h0 : u = 0
          · exact h0
          · rw [if_neg h0] at hu
            exact absurd (hrun u hu) (fun he => hr (he ▸ hu))
    · have : taskSchedule s = s := by
        simp only [taskSchedule, hq, if_neg hc]
      rw [this, ← hq] at *
      exact ⟨hnd, hcur, hready, hrun⟩
  · have hnq : n ∈ s.queue := by rw [hq]; exact List.mem_cons_self n rest
    have hnrest : n ∉ rest := by
      have h2 := hnd; rw [hq, List.nodup_cons] at h2
      exact h2.1
    have hndrest : rest.Nodup := by
      have h2 := hnd; rw [hq, List.nodup_cons] at h2
      exact h2.2
    have hncur : n ≠ s.current := fun he => hcur (he ▸ hnq)
    by_cases hr : s.st s.current = TState.running
    · refine ⟨?_, ?_, ?_, ?_⟩ <;>
        simp only [taskSchedule, hq, if_pos hr]
      · rw [List.nodup_append]
        refine ⟨hndrest, List.nodup_singleton _, ?_⟩
        intro a ha hb
        rw [List.mem_singleton] at hb
        subst hb
        exact hcur (by rw [hq]; exact List.mem_cons_of_mem _ ha)
      · rw [List.mem_append, List.mem_singleton]
        rintro (hm | hm)
        · exact hnrest hm
        · exact hncur hm
      · intro u hu
        rw [List.mem_append, List.mem_singleton] at hu
        by_cases hun : u = n
        · subst hun
          rcases hu with hu | hu
          · exact absurd hu hnrest
          · exact absurd hu hncur
        · rw [if_neg hun]
          rcases hu with hu | hu
          · by_cases hus : u = s.current
            · exfalso
              apply hcur
              rw [hq]
              exact List.mem_cons_of_mem _ (hus ▸ hu)
            · rw [if_neg hus]
              exact hready u (by rw [hq]; exact List.mem_cons_of_mem _ hu)
          · subst hu
            rw [if_pos rfl]
      · intro u hu
        by_cases hun : u = n
        · exact hun
        · rw [if_neg hun] at hu
          by_cases hus : u = s.current
          · rw [if_pos hus] at hu
            exact absurd hu (by decide)
          · rw [if_neg hus] at hu
            exact absurd (hrun u hu) hus
    · refine ⟨?_, ?_, ?_, ?_⟩ <;>
        simp only [taskSchedule, hq, if_neg hr]
      · exact hndrest
      · exact hnrest
      · intro u hu
        by_cases hun : u = n
        · subst hun
          exact absurd hu hnrest
        · rw [if_neg hun]
          exact hready u (by rw [hq]; exact List.mem_cons_of_mem _ hu)
      · intro u hu
        by_cases hun : u = n
        · exact hun
        · rw [if_neg hun] at hu
          exact absurd (hrun u hu) (fun he => hr (he ▸ hu))

theorem invariant_exit {s : SState} (h : Invariant s) :
    Invariant (taskExit s) := by
  obtain ⟨hnd, hcur, hready, hrun⟩ := h
  apply invariant_sched
  refine ⟨hnd, hcur, ?_, ?_⟩
  · intro t ht
    show (if t = s.current then TState.dead else s.st t) = TState.ready
    by_cases htc : t = s.current
    · exact absurd (htc ▸ ht) hcur
    · rw [if_neg htc]
      exact hready t ht
  · intro t ht
    show t = s.current
    by_cases htc : t = s.current
    · exact htc
    · simp only [htc, if_false] at ht
      exact hrun t ht

theorem invariant_reach {s : SState} (h : Reach s) : Invariant s := by
  induction h with
  | init => exact invariant_init
  | ready t _ h0 hc hq ih => exact invariant_ready t ih hc hq
  | sched _ ih => exact invariant_sched ih
  | exits _ ih => exact invariant_exit ih

end LiteCore.Sched

namespace LiteCore.Sched

/-- C1 (counterexample): the ready-queue invariant claimed for the
scheduler is false.  From the initial state, readying task 1 and calling
`task_schedule` re-enqueues the idle TCB (tid 0) on the ready queue
(because the current idle task is RUNNING and is put back on the queue);
after readying task 2 and scheduling once more, the idle task is
selected as current while the ready queue is still nonempty. -/
theorem claim1_counterexample :
    Reach cexEnqueued ∧ 0 ∈ cexEnqueued.queue ∧
    Reach cexSelected ∧ cexSelected.current = 0 ∧ cexSelected.queue ≠ [] :=
  ⟨reach_cexEnqueued, by decide, reach_cexSelected, by decide, by decide⟩

/-- C1 (amended): in every state reachable by the scheduler operations,
the task currently in state RUNNING is not an element of the ready
queue.  (The other two claimed invariants fail: the idle TCB is
re-enqueued by `task_schedule` whenever it is the running current task
and another task is ready, and it can then be selected while the queue
is nonempty.) -/
theorem claim1_running_not_on_queue (s : SState) (h : Reach s) :
    ∀ t, s.st t = TState.running → t ∉ s.queue := by
  obtain ⟨hnd, hcur, hready, hrun⟩ := invariant_reach h
  intro t ht
  rw [hrun t ht]
  exact hcur

/-- C1 (witness): the amended invariant applied to a concrete reachable
state. -/
theorem claim1_witness :
    Reach cexEnqueued ∧
    ∀ t, cexEnqueued.st t = TState.running → t ∉ cexEnqueued.queue :=
  ⟨reach_cexEnqueued, claim1_running_not_on_queue cexEnqueued reach_cexEnqueued⟩

end LiteCore.Sched

namespace LiteCore

/-- C2: the frame built by `task_enter_usermode`.  The routine pushes
SS=0x23, the user RSP, RFLAGS with IF forced, then CS=**0x1B** (not the
0x2B the specification states), then RIP, and loads CR3 with the given
page-table root before `iretq`.  In the GDT documented by this very
repository (kernel code 0x08, user 32-bit code 0x18, user data 0x20,
user 64-bit code 0x28) selector 0x1B is the 32-bit user code segment,
contradicting the repository's own `IRETQ-FRAME: ... CS=0x2B` log. -/
theorem claim2_usermode_frame (entry user_stack page_directory rflags0 : Nat) :
    task_enter_usermode entry user_stack page_directory rflags0 =
      { frame :=
        { ss := 0x23
          rsp := user_stack
          rflags := rflags0 ||| 0x200
          cs := 0x1B
          rip := entry }
        cr3 := page_directory } ∧
    (task_enter_usermode entry user_stack page_directory rflags0).frame.cs
      ≠ 0x2B :=
  ⟨rfl, by show (0x1B : Nat) ≠ 0x2B; decide⟩

end LiteCore

namespace LiteCore.FrameMap

/-! ## Physical frame allocator (src/src/kernel/mem/map.c)

The allocator manages frames `[start_frame, start_frame + frames)` with
lazily created per-chunk bitmaps (1 MiB chunks, 256 frames each).  We
model the union of the chunk bitmaps as the finite set `bits` of set bit
positions (indices relative to `start_frame`) together with the set
`created` of chunk indices whose bitmap has been allocated.  The C word
loop skips only all-ones words, so the chunk scan finds the first clear
bit of the chunk; chunk creation (which we model as always succeeding,
i.e. the kernel heap can supply the 32-byte bitmap) yields an all-clear
chunk whose first bit is immediately taken. -/

def FRAME_SIZE : Nat := 4096

def CHUNK_SIZE : Nat := 1 <<< 20

def framesPerChunk : Nat := CHUNK_SIZE / FRAME_SIZE

structure MState where
  startFrame : Nat
  frames : Nat
  created : Finset Nat
  bits : Finset Nat
deriving DecidableEq

def maxChunk (s : MState) : Nat :=
  (s.frames + framesPerChunk - 1) / framesPerChunk

/-- The chunk-by-chunk, word-by-word, bit-by-bit scan of `alloc_frame`:
the first clear bit among the chunks `0 .. limit/framesPerChunk`. -/
def findFree (bits : Finset Nat) (limit : Nat) : Option Nat :=
  (List.range limit).find? fun g => decide (g ∉ bits)

/-- `alloc_frame`: scan the chunks in order (creating them lazily) for a
clear bit; set it; if the resulting frame number exceeds the managed
range, clear it again and fail. -/
def allocFrame (s : MState) : Option Nat × MState :=
  if s.frames = 0 then (none, s)
  else
    match findFree s.bits (maxChunk s * framesPerChunk) with
    | none => (none, { s with created := s.created ∪ Finset.range (maxChunk s) })
    | some g =>
      if g < s.frames then
        (some ((s.startFrame + g) * FRAME_SIZE),
         { s with bits := insert g s.bits
                  created := s.created ∪ Finset.range (g / framesPerChunk + 1) })
      else
        (none, { s with
                 created := s.created ∪ Finset.range (g / framesPerChunk + 1) })

/-- `free_frame(addr)`: reject NULL and unaligned addresses; ignore
addresses outside the managed range; clear the bit if its chunk exists
(clearing never creates a chunk). -/
def freeFrame (s : MState) (addr : Nat) : MState :=
  if addr = 0 then s
  else if addr % FRAME_SIZE ≠ 0 then s
  else
    let frameNo := addr / FRAME_SIZE
    if frameNo < s.startFrame then s
    else
      let idx := frameNo - s.startFrame
      if s.frames ≤ idx then s
      else if idx / framesPerChunk ∈ s.created then
        { s with bits := s.bits.erase idx }
      else s

/-- An alloc/free call. -/
inductive Op where
  | alloc
  | free (addr : Nat)

/-- One step of the allocator together with the ghost set of outstanding
allocations (managed-range indices handed out by `alloc_frame` and not
yet returned).  The ghost update for `free` mirrors exactly the guards
under which `free_frame` clears a bit. -/
def stepOut (p : MState × Finset Nat) (op : Op) : MState × Finset Nat :=
  match op with
  | Op.alloc =>
    match allocFrame p.1 with
    | (none, s') => (s', p.2)
    | (some a, s') => (s', insert (a / FRAME_SIZE - p.1.startFrame) p.2)
  | Op.free addr =>
    let s' := freeFrame p.1 addr
    if addr = 0 then (s', p.2)
    else if addr % FRAME_SIZE ≠ 0 then (s', p.2)
    else
      let frameNo := addr / FRAME_SIZE
      if frameNo < p.1.startFrame then (s', p.2)
      else
        let idx := frameNo - p.1.startFrame
        if p.1.frames ≤ idx then (s', p.2)
        else if idx / framesPerChunk ∈ p.1.created then
          (s', p.2.erase idx)
        else (s', p.2)

def runOps (p : MState × Finset Nat) (ops : List Op) : MState × Finset Nat :=
  ops.foldl stepOut p

/-- The frame index a `free` op would clear, if any (the guards of
`free_frame`, keyed on the fixed `start_frame`/`frames` parameters). -/
def freeIdx (sf fr addr : Nat) : Option Nat :=
  if addr = 0 then none
  else if addr % FRAME_SIZE ≠ 0 then none
  else if addr / FRAME_SIZE < sf then none
  else if fr ≤ addr / FRAME_SIZE - sf then none
  else some (addr / FRAME_SIZE - sf)

/-- A `free` op never targets an initially reserved frame. -/
def FreeOk (sf fr : Nat) (r : Finset Nat) : Op → Prop
  | Op.alloc => True
  | Op.free addr =>
    match freeIdx sf fr addr with
    | none => True
    | some i => i ∉ r

/-- Inductive invariant tying the bitmap to the reserved set and the
ghost outstanding set. -/
def Inv (r : Finset Nat) (p : MState × Finset Nat) : Prop :=
  p.1.bits = r ∪ p.2 ∧ Disjoint r p.2 ∧
  (∀ g ∈ p.1.bits, g / framesPerChunk ∈ p.1.created)

end LiteCore.FrameMap

namespace LiteCore.FrameMap

theorem findFree_not_mem {bits : Finset Nat} {limit g : Nat}
    (h : findFree bits limit = some g) : g ∉ bits := by
  have h2 := List.find?_some h
  simpa using h2

theorem allocFrame_none {s s' : MState} (h : allocFrame s = (none, s')) :
    s'.bits = s.bits ∧ s'.startFrame = s.startFrame ∧ s'.frames = s.frames ∧
    s.created ⊆ s'.created := by
  unfold allocFrame at h
  by_cases h0 : s.frames = 0
  · rw [if_pos h0] at h
    obtain ⟨-, rfl⟩ := Prod.mk.injEq .. ▸ h
    exact ⟨rfl, rfl, rfl, subset_rfl⟩
  · rw [if_neg h0] at h
    rcases hf : findFree s.bits (maxChunk s * framesPerChunk) with _ | g
    · rw [hf] at h
      dsimp only at h
      obtain ⟨-, rfl⟩ := Prod.mk.injEq .. ▸ h
      exact ⟨rfl, rfl, rfl, Finset.subset_union_left⟩
    · rw [hf] at h
      dsimp only at h
      by_cases hg : g < s.frames
      · rw [if_pos hg] at h
        exact absurd (Prod.mk.injEq .. ▸ h).1 (by simp)
      · rw [if_neg hg] at h
        obtain ⟨-, rfl⟩ := Prod.mk.injEq .. ▸ h
        exact ⟨rfl, rfl, rfl, Finset.subset_union_left⟩

theorem allocFrame_some {s s' : MState} {a : Nat}
    (h : allocFrame s = (some a, s')) :
    ∃ g, a = (s.startFrame + g) * FRAME_SIZE ∧ g ∉ s.bits ∧ g < s.frames ∧
      s'.bits = insert g s.bits ∧
      s'.created = s.created ∪ Finset.range (g / framesPerChunk + 1) ∧
      s'.startFrame = s.startFrame ∧ s'.frames = s.frames := by
  unfold allocFrame at h
  by_cases h0 : s.frames = 0
  · rw [if_pos h0] at h
    exact absurd (Prod.mk.injEq .. ▸ h).1 (by simp)
  · rw [if_neg h0] at h
    rcases hf : findFree s.bits (maxChunk s * framesPerChunk) with _ | g
    · rw [hf] at h
      dsimp only at h
      exact absurd (Prod.mk.injEq .. ▸ h).1 (by simp)
    · rw [hf] at h
      dsimp only at h
      by_cases hg : g < s.frames
      · rw [if_pos hg] at h
        obtain ⟨ha, rfl⟩ := Prod.mk.injEq .. ▸ h
        refine ⟨g, (Option.some.injEq .. ▸ ha).symm, findFree_not_mem hf, hg,
          rfl, rfl, rfl, rfl⟩
      · rw [if_neg hg] at h
        exact absurd (Prod.mk.injEq .. ▸ h).1 (by simp)

theorem freeFrame_eq (s : MState) (addr : Nat) :
    freeFrame s addr =
      match freeIdx s.startFrame s.frames addr with
      | none => s
      | some idx =>
        if idx / framesPerChunk ∈ s.created then
          { s with bits := s.bits.erase idx }
        else s := by
  unfold freeFrame freeIdx
  by_cases h0 : addr = 0
  · simp [h0]
  · rw [if_neg h0, if_neg h0]
    by_cases h1 : addr % FRAME_SIZE ≠ 0
    · simp [h1]
    · rw [if_neg h1, if_neg h1]
      by_cases h2 : addr / FRAME_SIZE < s.startFrame
      · simp [h2]
      · rw [if_neg h2, if_neg h2]
        by_cases h3 : s.frames ≤ addr / FRAME_SIZE - s.startFrame
        · simp [h3]
        · rw [if_neg h3, if_neg h3]

theorem stepOut_free_eq (p : MState × Finset Nat) (addr : Nat) :
    stepOut p (Op.free addr) =
      match freeIdx p.1.startFrame p.1.frames addr with
      | none => p
      | some idx =>
        if idx / framesPerChunk ∈ p.1.created then
          ({ p.1 with bits := p.1.bits.erase idx }, p.2.erase idx)
        else p := by
  obtain ⟨s, out⟩ := p
  unfold stepOut freeFrame freeIdx
  dsimp only
  by_cases h0 : addr = 0
  · rw [if_pos h0, if_pos h0, if_pos h0]
  · rw [if_neg h0, if_neg h0, if_neg h0]
    by_cases h1 : addr % FRAME_SIZE ≠ 0
    · rw [if_pos h1, if_pos h1, if_pos h1]
    · rw [if_neg h1, if_neg h1, if_neg h1]
      by_cases h2 : addr / FRAME_SIZE < s.startFrame
      · rw [if_pos h2, if_pos h2, if_pos h2]
      · rw [if_neg h2, if_neg h2, if_neg h2]
        by_cases h3 : s.frames ≤ addr / FRAME_SIZE - s.startFrame
        · rw [if_pos h3, if_pos h3, if_pos h3]
        · rw [if_neg h3, if_neg h3, if_neg h3]
          dsimp only
          by_cases h4 : (addr / FRAME_SIZE - s.startFrame) /
              framesPerChunk ∈ s.created
          · rw [if_pos h4, if_pos h4, if_pos h4]
          · rw [if_neg h4, if_neg h4, if_neg h4]

theorem inv_alloc {r : Finset Nat} {p : MState × Finset Nat} (h : Inv r p) :
    Inv r (stepOut p Op.alloc) ∧
    (stepOut p Op.alloc).1.startFrame = p.1.startFrame ∧
    (stepOut p Op.alloc).1.frames = p.1.frames := by
  obtain ⟨hb, hd, hcov⟩ := h
  rcases ha : allocFrame p.1 with ⟨o, s'⟩
  have hstep : stepOut p Op.alloc =
      match (o, s') with
      | (none, s') => (s', p.2)
      | (some a, s') => (s', insert (a / FRAME_SIZE - p.1.startFrame) p.2) := by
    unfold stepOut
    rw [ha]
  rcases o with _ | a
  · dsimp only at hstep
    obtain ⟨hb', hsf, hfr, hsub⟩ := allocFrame_none ha
    rw [hstep]
    refine ⟨⟨by rw [hb', hb], hd, ?_⟩, hsf, hfr⟩
    intro g hg
    rw [hb'] at hg
    exact hsub (hcov g hg)
  · dsimp only at hstep
    obtain ⟨g, hag, hgb, hgf, hb', hc', hsf, hfr⟩ := allocFrame_some ha
    have hga : a / FRAME_SIZE - p.1.startFrame = g := by
      subst hag
      rw [Nat.mul_div_cancel _ (by norm_num [FRAME_SIZE])]
      omega
    have hgr : g ∉ r := by
      intro hgr2
      exact hgb (hb ▸ Finset.mem_union_left _ hgr2)
    rw [hstep, hga]
    refine ⟨⟨?_, ?_, ?_⟩, hsf, hfr⟩
    · rw [hb', hb, Finset.union_insert]
    · rw [Finset.disjoint_insert_right]
      exact ⟨hgr, hd⟩
    · intro x hx
      rw [hb'] at hx
      rw [hc']
      rcases Finset.mem_insert.mp hx with rfl | hx
      · exact Finset.mem_union_right _
          (Finset.mem_range.mpr (Nat.lt_succ_self _))
      · exact Finset.mem_union_left _ (hcov x hx)

theorem inv_free {r : Finset Nat} {p : MState × Finset Nat} {addr : Nat}
    (hok : FreeOk p.1.startFrame p.1.frames r (Op.free addr))
    (h : Inv r p) :
    Inv r (stepOut p (Op.free addr)) ∧
    (stepOut p (Op.free addr)).1.startFrame = p.1.startFrame ∧
    (stepOut p (Op.free addr)).1.frames = p.1.frames := by
  rw [stepOut_free_eq]
  rcases hi : freeIdx p.1.startFrame p.1.frames addr with _ | idx
  · exact ⟨h, rfl, rfl⟩
  · have hnr : idx ∉ r := by
      unfold FreeOk at hok
      dsimp only at hok
      rw [hi] at hok
      exact hok
    dsimp only
    by_cases hc : idx / framesPerChunk ∈ p.1.created
    · rw [if_pos hc]
      obtain ⟨hb, hd, hcov⟩ := h
      refine ⟨⟨?_, ?_, ?_⟩, rfl, rfl⟩
      · show p.1.bits.erase idx = r ∪ p.2.erase idx
        rw [hb, Finset.erase_union_distrib, Finset.erase_eq_of_not_mem hnr]
      · exact hd.mono_right (Finset.erase_subset _ _)
      · intro x hx
        exact hcov x (Finset.mem_of_mem_erase hx)
    · rw [if_neg hc]
      exact ⟨h, rfl, rfl⟩

theorem runOps_inv {r : Finset Nat} (sf fr : Nat) (ops : List Op) :
    ∀ (p : MState × Finset Nat),
      p.1.startFrame = sf → p.1.frames = fr →
      (∀ op ∈ ops, FreeOk sf fr r op) → Inv r p →
      Inv r (runOps p ops) ∧ (runOps p ops).1.startFrame = sf ∧
        (runOps p ops).1.frames = fr := by
  induction ops with
  | nil =>
    intro p hsf hfr _ h
    exact ⟨h, hsf, hfr⟩
  | cons op rest ih =>
    intro p hsf hfr hops h
    have hrun : runOps p (op :: rest) = runOps (stepOut p op) rest := by
      unfold runOps
      rw [List.foldl_cons]
    rw [hrun]
    have hop := hops op (List.mem_cons_self ..)
    have hrest : ∀ o ∈ rest, FreeOk sf fr r o := fun o ho =>
      hops o (List.mem_cons_of_mem _ ho)
    rcases op with _ | addr
    · obtain ⟨h', hsf', hfr'⟩ := inv_alloc h
      exact ih _ (hsf' ▸ hsf) (hfr' ▸ hfr) hrest h'
    · rw [← hsf, ← hfr] at hop
      obtain ⟨h', hsf', hfr'⟩ := inv_free hop h
      exact ih _ (hsf' ▸ hsf) (hfr' ▸ hfr) hrest h'

theorem freeFrame_unaligned (s : MState) (addr : Nat)
    (h : addr % FRAME_SIZE ≠ 0) : freeFrame s addr = s := by
  unfold freeFrame
  by_cases h0 : addr = 0
  · rw [if_pos h0]
  · rw [if_neg h0, if_pos h]

theorem freeFrame_idem (s : MState) (addr : Nat) :
    freeFrame (freeFrame s addr) addr = freeFrame s addr := by
  rw [freeFrame_eq s addr]
  rcases hi : freeIdx s.startFrame s.frames addr with _ | idx
  · dsimp only
    rw [freeFrame_eq, hi]
  · dsimp only
    by_cases hc : idx / framesPerChunk ∈ s.created
    · rw [if_pos hc, freeFrame_eq]
      dsimp only
      rw [hi]
      dsimp only
      rw [if_pos hc, Finset.erase_idem]
    · rw [if_neg hc, freeFrame_eq, hi]
      dsimp only
      rw [if_neg hc]

theorem freeIdx_alloc_addr (sf fr g : Nat) (hsf : 0 < sf) (hg : g < fr) :
    freeIdx sf fr ((sf + g) * FRAME_SIZE) = some g := by
  unfold freeIdx
  have hmod : (sf + g) * FRAME_SIZE % FRAME_SIZE = 0 := Nat.mul_mod_left _ _
  have hdiv : (sf + g) * FRAME_SIZE / FRAME_SIZE = sf + g :=
    Nat.mul_div_cancel _ (by norm_num [FRAME_SIZE])
  rw [if_neg (by simp [FRAME_SIZE]; omega),
    if_neg (not_not_intro hmod), hdiv, if_neg (by omega), if_neg (by omega)]
  congr 1
  omega

/-- C7: frame-allocator bijection.  (a) Over every alloc/free sequence
from an initialized map whose bitmap holds exactly the reserved set `r`
(with the reserved bits' chunks created), the number of set bits equals
the number of reserved frames plus the number of outstanding (allocated,
not yet freed) frames.  (b) `free_frame(alloc_frame())` restores the
initial bitmap.  (c) a successful `alloc_frame` returns a page-aligned
address whose bit was clear before and set after the call.  (d) an
unaligned `free_frame` changes nothing.  (e) `free_frame` clears its bit
idempotently. -/
theorem claim7_frame_allocator :
    (∀ (s0 : MState) (r : Finset Nat) (ops : List Op),
      s0.bits = r →
      (∀ g ∈ r, g / framesPerChunk ∈ s0.created) →
      (∀ op ∈ ops, FreeOk s0.startFrame s0.frames r op) →
      (runOps (s0, ∅) ops).1.bits.card =
        r.card + (runOps (s0, ∅) ops).2.card) ∧
    (∀ (s0 s1 : MState) (a : Nat), 0 < s0.startFrame →
      allocFrame s0 = (some a, s1) →
      (freeFrame s1 a).bits = s0.bits) ∧
    (∀ (s0 s1 : MState) (a : Nat), allocFrame s0 = (some a, s1) →
      a % FRAME_SIZE = 0 ∧ (a / FRAME_SIZE - s0.startFrame) ∉ s0.bits ∧
      (a / FRAME_SIZE - s0.startFrame) ∈ s1.bits) ∧
    (∀ (s : MState) (addr : Nat), addr % FRAME_SIZE ≠ 0 →
      freeFrame s addr = s) ∧
    (∀ (s : MState) (addr : Nat),
      freeFrame (freeFrame s addr) addr = freeFrame s addr) := by
  refine ⟨?_, ?_, ?_, freeFrame_unaligned, freeFrame_idem⟩
  · intro s0 r ops hbits hcov hops
    have h0 : Inv r (s0, ∅) := by
      refine ⟨by simpa using hbits, ?_, fun g hg => hcov g (hbits ▸ hg)⟩
      simp
    obtain ⟨⟨hb, hd, -⟩, -, -⟩ :=
      runOps_inv s0.startFrame s0.frames ops (s0, ∅) rfl rfl hops h0
    rw [hb]
    exact Finset.card_union_of_disjoint hd
  · intro s0 s1 a hsf ha
    obtain ⟨g, hag, hgb, hgf, hb', hc', hsf1, hfr1⟩ := allocFrame_some ha
    rw [freeFrame_eq, hsf1, hfr1, hag,
      freeIdx_alloc_addr s0.startFrame s0.frames g hsf hgf]
    dsimp only
    rw [if_pos (by
      rw [hc']
      exact Finset.mem_union_right _
        (Finset.mem_range.mpr (Nat.lt_succ_self _)))]
    show s1.bits.erase g = s0.bits
    rw [hb', Finset.erase_insert hgb]
  · intro s0 s1 a ha
    obtain ⟨g, hag, hgb, hgf, hb', hc', hsf1, hfr1⟩ := allocFrame_some ha
    have hdiv : a / FRAME_SIZE = s0.startFrame + g := by
      rw [hag]
      exact Nat.mul_div_cancel _ (by norm_num [FRAME_SIZE])
    have hidx : a / FRAME_SIZE - s0.startFrame = g := by omega
    refine ⟨by rw [hag]; exact Nat.mul_mod_left _ _, ?_, ?_⟩
    · rw [hidx]
      exact hgb
    · rw [hidx, hb']
      exact Finset.mem_insert_self g s0.bits

/-- C7 (witness): the counting invariant on a concrete two-op run and
the unaligned-free guarantee at a concrete address. -/
theorem claim7_witness :
    ((runOps (⟨256, 512, ∅, ∅⟩, ∅) [Op.alloc, Op.free 1048576]).1.bits.card =
      (∅ : Finset Nat).card +
        (runOps (⟨256, 512, ∅, ∅⟩, ∅) [Op.alloc, Op.free 1048576]).2.card) ∧
    ((5 : Nat) % FRAME_SIZE ≠ 0 ∧
      freeFrame ⟨256, 512, ∅, ∅⟩ 5 = ⟨256, 512, ∅, ∅⟩) :=
  ⟨claim7_frame_allocator.1 ⟨256, 512, ∅, ∅⟩ ∅ [Op.alloc, Op.free 1048576]
      rfl (by decide)
      (by
        intro op hop
        rcases List.mem_cons.mp hop with rfl | hop
        · trivial
        · rw [List.mem_singleton.mp hop]
          show (0 : Nat) ∉ (∅ : Finset Nat)
          decide),
    by decide,
    claim7_frame_allocator.2.2.2.1 ⟨256, 512, ∅, ∅⟩ 5 (by decide)⟩

end LiteCore.FrameMap

namespace LiteCore.Vfs

/-! ## VFS (src/src/kernel/fs/vfs.c)

A `vfs_file` caches the path, the lazily loaded contents (`buf`), the
content size and the read offset.  The global handle table is the 2048
entry `open_files` array; the current task's fd table maps fds 3..31 to
global handle indices.  The backend (registered function pointers) is a
parameter: `getFileSize` returns `some size` when the backend call
succeeds, `readFile path maxlen` returns the bytes read (out_len =
length), `writeFile` returns the success flag.  Kernel-heap allocations
(`kmalloc` for the file struct and content buffer) are modelled as
succeeding. -/

structure VfsFile where
  path : String
  buf : Option (List Nat)
  buf_size : Nat
  buf_allocated : Nat
  offset : Nat
deriving DecidableEq, Repr

structure Backend where
  getFileSize : String → Option Nat
  readFile : String → Nat → Option (List Nat)
  writeFile : String → List Nat → Bool

structure VfsState where
  handles : List (Option VfsFile)
  fds : List (Option Nat)
deriving DecidableEq, Repr

/-- `allocate_global_handle`: index of the first free slot. -/
def allocGlobalHandle (handles : List (Option VfsFile)) : Option Nat :=
  handles.findIdx? Option.isNone

/-- `vfs_fd_alloc_for_current`: first free fd in 3..31. -/
def fdAllocForCurrent (fds : List (Option Nat)) : Option Nat :=
  (List.range' 3 29).find? fun i => (fds.getD i none).isNone

def updateHandle (st : VfsState) (gidx : Nat) (vf : VfsFile) : VfsState :=
  { st with handles := st.handles.set gidx (some vf) }

/-- `vfs_open(path, flags, mode)` (flags/mode unused): allocate the file
struct and a global handle, query the backend size (ignoring failure and
size 0), allocate a per-task fd (3..31) and bind it. -/
def vfsOpen (b : Backend) (st : VfsState) (path : String) :
    Option Nat × VfsState :=
  let vf0 : VfsFile :=
    { path := path.take 255, buf := none, buf_size := 0, buf_allocated := 0
      offset := 0 }
  match allocGlobalHandle st.handles with
  | none => (none, st)
  | some gidx =>
    let vf :=
      match b.getFileSize vf0.path with
      | some sz => if 0 < sz then { vf0 with buf_size := sz } else vf0
      | none => vf0
    match fdAllocForCurrent st.fds with
    | none => (none, st)
    | some fd =>
      (some fd,
        { handles := st.handles.set gidx (some vf)
          fds := st.fds.set fd (some gidx) })

/-- The tail of `vfs_read`: copy from the cached buffer, reading past
the size yields 0 bytes. -/
def copyOut (vf : VfsFile) (bytes : List Nat) (len : Nat) :
    Int × List Nat × VfsFile :=
  let avail := if vf.offset < vf.buf_size then vf.buf_size - vf.offset else 0
  let toCopy := min len avail
  (Int.ofNat toCopy, (bytes.drop vf.offset).take toCopy,
    { vf with offset := vf.offset + toCopy })

/-- `vfs_read(fd, buf, len)` for fd ≥ 3 (fd 0 is the keyboard path,
outside this model): lazily load the file on first read — query the
size if unknown, then read the whole content through the backend —
then serve from the cache. -/
def vfsRead (b : Backend) (st : VfsState) (fd : Nat) (len : Nat) :
    Int × List Nat × VfsState :=
  if fd < 3 ∨ 32 ≤ fd then (-1, [], st)
  else
    match st.fds.getD fd none with
    | none => (-1, [], st)
    | some gidx =>
      match st.handles.getD gidx none with
      | none => (-1, [], st)
      | some vf =>
        match vf.buf with
        | some bytes =>
          let r := copyOut vf bytes len
          (r.1, r.2.1, updateHandle st gidx r.2.2)
        | none =>
          let vfa :=
            if vf.buf_size = 0 then
              match b.getFileSize vf.path with
              | some sz => if 0 < sz then { vf with buf_size := sz } else vf
              | none => vf
            else vf
          if 0 < vfa.buf_size then
            let vfb := { vfa with buf_allocated := vfa.buf_size }
            match b.readFile vfa.path vfa.buf_size with
            | none => (-1, [], updateHandle st gidx vfb)
            | some bytes =>
              if vfa.buf_size < bytes.length then
                (-1, [], updateHandle st gidx vfb)
              else
                let vfc :=
                  { vfb with buf := some bytes, buf_size := bytes.length }
                let r := copyOut vfc bytes len
                (r.1, r.2.1, updateHandle st gidx r.2.2)
          else
            (0, [], updateHandle st gidx vfa)

/-- `vfs_write(fd, buf, len)` for fd ≥ 3: backend truncating overwrite,
then refresh the cached buffer, size and offset. -/
def vfsWrite (b : Backend) (st : VfsState) (fd : Nat) (data : List Nat) :
    Int × VfsState :=
  if fd = 1 ∨ fd = 2 then (Int.ofNat data.length, st)
  else if fd < 3 ∨ 32 ≤ fd then (-1, st)
  else
    match st.fds.getD fd none with
    | none => (-1, st)
    | some gidx =>
      match st.handles.getD gidx none with
      | none => (-1, st)
      | some vf =>
        if b.writeFile vf.path data then
          (Int.ofNat data.length,
            updateHandle st gidx
              { vf with buf := some data, buf_size := data.length
                        offset := data.length })
        else (-1, st)

/-- `vfs_lseek(fd, offset, whence)`: compute the new offset (SEEK_SET /
SEEK_CUR / SEEK_END) and store its low 32 bits — without clamping it to
`buf_size`. -/
def vfsLseek (st : VfsState) (fd : Nat) (offset : Int) (whence : Nat) :
    Int × VfsState :=
  if fd < 3 ∨ 32 ≤ fd then (-1, st)
  else
    match st.fds.getD fd none with
    | none => (-1, st)
    | some gidx =>
      match st.handles.getD gidx none with
      | none => (-1, st)
      | some vf =>
        if whence = 0 then
          let off32 := (offset.emod (2 ^ 32)).toNat
          (Int.ofNat off32, updateHandle st gidx { vf with offset := off32 })
        else if whence = 1 then
          let off32 := (((vf.offset : Int) + offset).emod (2 ^ 32)).toNat
          (Int.ofNat off32, updateHandle st gidx { vf with offset := off32 })
        else if whence = 2 then
          let off32 := (((vf.buf_size : Int) + offset).emod (2 ^ 32)).toNat
          (Int.ofNat off32, updateHandle st gidx { vf with offset := off32 })
        else (-1, st)

/-- Fresh VFS state: empty handle table, per-task fds all free. -/
def vinit : VfsState :=
  { handles := List.replicate 2048 none, fds := List.replicate 32 none }

end LiteCore.Vfs

namespace LiteCore.Vfs

/-- Generic helper: `findIdx?` returns an in-range index whose element
satisfies the predicate. -/
theorem findIdx?_spec {α : Type} (d : α) (p : α → Bool) (l : List α) (i : Nat)
    (h : l.findIdx? p = some i) : i < l.length ∧ p (l.getD i d) = true := by
  induction l generalizing i with
  | nil => simp [List.findIdx?] at h
  | cons a as ih =>
    rw [List.findIdx?_cons, List.findIdx?_succ] at h
    by_cases ha : p a
    · rw [if_pos ha] at h
      have hi : i = 0 := (Option.some.injEq .. ▸ h).symm
      subst hi
      simpa using ha
    · rw [if_neg ha] at h
      rcases hm : as.findIdx? p with _ | j
      · rw [hm] at h
        simp at h
      · rw [hm] at h
        simp only [Option.map_some'] at h
        have hji : j + 1 = i := Option.some.injEq .. ▸ h
        subst hji
        have hj := ih j hm
        refine ⟨by simp; omega, by simpa using hj.2⟩

theorem getD_set_self {α : Type} (l : List α) (i : Nat) (x d : α)
    (h : i < l.length) : (l.set i x).getD i d = x := by
  simp [List.getD_eq_getElem?_getD, List.getElem?_set_self, h]

theorem getD_set_ne {α : Type} (l : List α) {i j : Nat} (x d : α)
    (h : i ≠ j) : (l.set i x).getD j d = l.getD j d := by
  simp [List.getD_eq_getElem?_getD, List.getElem?_set_ne h]

theorem getD_set_cases {α : Type} (l : List α) (i j : Nat) (x d : α) :
    (l.set i x).getD j d = x ∨ (l.set i x).getD j d = l.getD j d := by
  by_cases hij : i = j
  · subst hij
    by_cases hl : i < l.length
    · exact Or.inl (getD_set_self l i x d hl)
    · right
      rw [List.set_eq_of_length_le (by omega)]
  · exact Or.inr (getD_set_ne l x d hij)

/-- The per-file invariant maintained by open/read/write: the cached
offset never exceeds the cached size, and an unloaded file has offset
zero. -/
def FileInv (f : VfsFile) : Prop :=
  f.offset ≤ f.buf_size ∧ (f.buf = none → f.offset = 0)

def StInv (st : VfsState) : Prop :=
  ∀ i f, st.handles.getD i none = some f → FileInv f

theorem stinv_update {st : VfsState} {gidx : Nat} {vf : VfsFile}
    (h : StInv st) (hf : FileInv vf) : StInv (updateHandle st gidx vf) := by
  intro i f hi
  rcases getD_set_cases st.handles gidx i (some vf) none with he | he
  · rw [updateHandle] at hi
    dsimp only at hi
    rw [he] at hi
    exact (Option.some.injEq .. ▸ hi) ▸ hf
  · rw [updateHandle] at hi
    dsimp only at hi
    rw [he] at hi
    exact h i f hi

/-- Reachability by `vfs_open` / `vfs_read` / `vfs_write` (the public
operations other than `vfs_lseek`) from a fresh VFS state. -/
inductive VReach (b : Backend) : VfsState → Prop where
  | init : VReach b vinit
  | openf (path : String) {st} : VReach b st → VReach b (vfsOpen b st path).2
  | readf (fd len : Nat) {st} : VReach b st →
      VReach b (vfsRead b st fd len).2.2
  | writef (fd : Nat) (data : List Nat) {st} : VReach b st →
      VReach b (vfsWrite b st fd data).2

theorem stinv_init : StInv vinit := by
  intro i f hi
  rw [vinit] at hi
  dsimp only at hi
  rw [List.getD_eq_getElem?_getD] at hi
  rcases h : (List.replicate 2048 (none : Option VfsFile))[i]? with _ | a
  · rw [h] at hi
    simp at hi
  · rw [h] at hi
    have := List.getElem?_mem h
    rw [List.eq_of_mem_replicate this] at hi
    simp at hi

theorem stinv_open {b : Backend} {st : VfsState} (path : String)
    (h : StInv st) : StInv (vfsOpen b st path).2 := by
  unfold vfsOpen
  rcases hg : allocGlobalHandle st.handles with _ | gidx
  · exact h
  · dsimp only
    rcases hf : fdAllocForCurrent st.fds with _ | fd
    · exact h
    · dsimp only
      intro i f hi
      dsimp only at hi
      rcases getD_set_cases st.handles gidx i
        (some (match b.getFileSize (String.take path 255) with
          | some sz =>
            if 0 < sz then
              { path := String.take path 255, buf := none, buf_size := sz,
                buf_allocated := 0, offset := 0 }
            else
              { path := String.take path 255, buf := none, buf_size := 0,
                buf_allocated := 0, offset := 0 }
          | none =>
            { path := String.take path 255, buf := none, buf_size := 0,
              buf_allocated := 0, offset := 0 })) none with he | he
      · rw [he] at hi
        have hfv := Option.some.injEq .. ▸ hi
        rcases hs : b.getFileSize (String.take path 255) with _ | sz
        · rw [hs] at hfv
          dsimp only at hfv
          rw [← hfv]
          exact ⟨Nat.zero_le _, fun _ => rfl⟩
        · rw [hs] at hfv
          dsimp only at hfv
          by_cases h0 : 0 < sz
          · rw [if_pos h0] at hfv
            rw [← hfv]
            exact ⟨Nat.zero_le _, fun _ => rfl⟩
          · rw [if_neg h0] at hfv
            rw [← hfv]
            exact ⟨Nat.zero_le _, fun _ => rfl⟩
      · rw [he] at hi
        exact h i f hi

end LiteCore.Vfs

namespace LiteCore.Vfs

theorem copyOut_inv (vf : VfsFile) (bytes : List Nat) (len : Nat)
    (h1 : vf.offset ≤ vf.buf_size) (h2 : vf.buf ≠ none) :
    FileInv (copyOut vf bytes len).2.2 := by
  unfold copyOut FileInv
  dsimp only
  constructor
  · by_cases hc : vf.offset < vf.buf_size
    · rw [if_pos hc]
      have := Nat.min_le_right len (vf.buf_size - vf.offset)
      omega
    · rw [if_neg hc]
      simpa using h1
  · intro hb
    exact absurd hb h2

theorem stinv_read {b : Backend} {st : VfsState} (fd len : Nat)
    (h : StInv st) : StInv (vfsRead b st fd len).2.2 := by
  unfold vfsRead
  by_cases hfd : fd < 3 ∨ 32 ≤ fd
  · rw [if_pos hfd]
    exact h
  · rw [if_neg hfd]
    rcases hg : st.fds.getD fd none with _ | gidx
    · exact h
    · dsimp only
      rcases hh : st.handles.getD gidx none with _ | vf
      · exact h
      · dsimp only
        have hinv := h gidx vf hh
        rcases hb : vf.buf with _ | bytes
        · dsimp only
          have hoff : vf.offset = 0 := hinv.2 hb
          by_cases h0 : vf.buf_size = 0
          · rw [if_pos h0]
            rcases hs : b.getFileSize vf.path with _ | sz
            · dsimp only
              rw [if_neg (show ¬ 0 < vf.buf_size by omega)]
              exact stinv_update h ⟨hinv.1, fun _ => hoff⟩
            · dsimp only
              by_cases hsz : 0 < sz
              · rw [if_pos hsz, if_pos (show 0 < sz from hsz)]
                dsimp only
                rcases hr : b.readFile vf.path sz with _ | rbytes
                · refine stinv_update h ⟨?_, fun _ => hoff⟩
                  show vf.offset ≤ sz
                  omega
                · dsimp only
                  by_cases hlen : sz < rbytes.length
                  · rw [if_pos hlen]
                    refine stinv_update h ⟨?_, fun _ => hoff⟩
                    show vf.offset ≤ sz
                    omega
                  · rw [if_neg hlen]
                    refine stinv_update h (copyOut_inv _ _ _ ?_ ?_)
                    · show vf.offset ≤ rbytes.length
                      omega
                    · show (some rbytes : Option (List Nat)) ≠ none
                      simp
              · rw [if_neg hsz]
                rw [if_neg (show ¬ 0 < vf.buf_size by omega)]
                exact stinv_update h ⟨hinv.1, fun _ => hoff⟩
          · rw [if_neg h0, if_pos (show 0 < vf.buf_size by omega)]
            rcases hr : b.readFile vf.path vf.buf_size with _ | rbytes
            · exact stinv_update h ⟨hinv.1, fun _ => hoff⟩
            · dsimp only
              by_cases hlen : vf.buf_size < rbytes.length
              · rw [if_pos hlen]
                exact stinv_update h ⟨hinv.1, fun _ => hoff⟩
              · rw [if_neg hlen]
                refine stinv_update h (copyOut_inv _ _ _ ?_ ?_)
                · show vf.offset ≤ rbytes.length
                  omega
                · show (some rbytes : Option (List Nat)) ≠ none
                  simp
        · dsimp only
          refine stinv_update h (copyOut_inv _ _ _ hinv.1 ?_)
          rw [hb]
          simp

theorem stinv_write {b : Backend} {st : VfsState} (fd : Nat)
    (data : List Nat) (h : StInv st) : StInv (vfsWrite b st fd data).2 := by
  unfold vfsWrite
  by_cases h12 : fd = 1 ∨ fd = 2
  · rw [if_pos h12]
    exact h
  · rw [if_neg h12]
    by_cases hfd : fd < 3 ∨ 32 ≤ fd
    · rw [if_pos hfd]
      exact h
    · rw [if_neg hfd]
      rcases hg : st.fds.getD fd none with _ | gidx
      · exact h
      · dsimp only
        rcases hh : st.handles.getD gidx none with _ | vf
        · exact h
        · dsimp only
          by_cases hw : b.writeFile vf.path data
          · rw [if_pos hw]
            exact stinv_update h ⟨le_refl _, by simp⟩
          · rw [if_neg hw]
            exact h

theorem stinv_reach {b : Backend} {st : VfsState} (h : VReach b st) :
    StInv st := by
  induction h with
  | init => exact stinv_init
  | openf path _ ih => exact stinv_open path ih
  | readf fd len _ ih => exact stinv_read fd len ih
  | writef fd data _ ih => exact stinv_write fd data ih

end LiteCore.Vfs

namespace LiteCore.Vfs

/-- C5 (amended): the offset invariant holds for every open file after
any sequence of `vfs_open`, `vfs_read` and `vfs_write` — but `vfs_lseek`
(excluded here) stores its computed offset unclamped and can push
`offset` beyond `buf_size` (see the counterexample). -/
theorem claim5_offset_le_buf_size (b : Backend) (st : VfsState)
    (h : VReach b st) :
    ∀ i f, st.handles.getD i none = some f → f.offset ≤ f.buf_size :=
  fun i f hi => (stinv_reach h i f hi).1

/-- A backend exposing one 3-byte file under every path. -/
def cexBackend : Backend :=
  { getFileSize := fun _ => some 3
    readFile := fun _ n => some (List.replicate (min 3 n) 7)
    writeFile := fun _ _ => true }

/-- Open a file of size 3, then `lseek(fd, 5, SEEK_SET)`. -/
def cex5St : VfsState :=
  (vfsLseek (vfsOpen cexBackend vinit "a").2 3 5 0).2

set_option maxRecDepth 40000 in
/-- C5 (counterexample): after `vfs_open` (cached size 3) and
`vfs_lseek(fd, 5, SEEK_SET)`, the file's offset is 5 > 3 = buf_size, so
the claimed invariant `offset ≤ buf_size` fails once `vfs_lseek` is
among the operations. -/
theorem claim5_counterexample :
    cex5St.handles.getD 0 none =
      some { path := "a", buf := none, buf_size := 3, buf_allocated := 0,
             offset := 5 } ∧
    ¬ (5 : Nat) ≤ 3 := by
  constructor
  · decide
  · decide

set_option maxRecDepth 40000 in
/-- C5 (witness): the amended invariant at a concrete reachable state,
instantiated at handle 0 of the freshly opened file. -/
theorem claim5_witness :
    (vfsOpen cexBackend vinit "a").2.handles.getD 0 none =
      some { path := "a", buf := none, buf_size := 3, buf_allocated := 0,
             offset := 0 } ∧
    ({ path := "a", buf := none, buf_size := 3, buf_allocated := 0,
       offset := 0 } : VfsFile).offset ≤
      ({ path := "a", buf := none, buf_size := 3, buf_allocated := 0,
         offset := 0 } : VfsFile).buf_size :=
  have hgot : (vfsOpen cexBackend vinit "a").2.handles.getD 0 none =
      some { path := "a", buf := none, buf_size := 3, buf_allocated := 0,
             offset := 0 } := by decide
  ⟨hgot, claim5_offset_le_buf_size cexBackend (vfsOpen cexBackend vinit "a").2
    (VReach.openf "a" VReach.init) 0 _ hgot⟩

/-- C10: with a backend mounted, a free global handle and a free fd
slot (and kmalloc modelled as succeeding), `vfs_open` returns a valid
fd in 3..31 for every path; if the backend's size lookup fails (e.g.
the path is absent), the failure is ignored, the cached size stays 0,
and a subsequent `vfs_read` on that fd returns 0 bytes. -/
theorem claim10_open_missing_path (b : Backend) (st : VfsState)
    (path : String)
    (hfds : st.fds.length = 32)
    (hh : ∃ g, allocGlobalHandle st.handles = some g)
    (hf : ∃ fdx, fdAllocForCurrent st.fds = some fdx) :
    ∃ fd, (vfsOpen b st path).1 = some fd ∧ 3 ≤ fd ∧ fd < 32 ∧
      (b.getFileSize (path.take 255) = none →
        ∀ len, (vfsRead b (vfsOpen b st path).2 fd len).1 = 0 ∧
          (vfsRead b (vfsOpen b st path).2 fd len).2.1 = []) := by
  obtain ⟨gidx, hg⟩ := hh
  obtain ⟨fd, hfd⟩ := hf
  have hglt : gidx < st.handles.length :=
    (findIdx?_spec none _ _ _ hg).1
  have hfd_mem : fd ∈ List.range' 3 29 := List.mem_of_find?_eq_some hfd
  have hfd_range : 3 ≤ fd ∧ fd < 32 := by
    have := List.mem_range'_1.mp hfd_mem
    omega
  refine ⟨fd, ?_, hfd_range.1, hfd_range.2, ?_⟩
  · unfold vfsOpen
    rw [hg]
    dsimp only
    rw [hfd]
  · intro hsz len
    have hopen : (vfsOpen b st path).2 =
        { handles := st.handles.set gidx
            (some { path := path.take 255, buf := none, buf_size := 0,
                    buf_allocated := 0, offset := 0 })
          fds := st.fds.set fd (some gidx) } := by
      unfold vfsOpen
      rw [hg]
      dsimp only
      rw [hsz]
      dsimp only
      rw [hfd]
    rw [hopen]
    unfold vfsRead
    rw [if_neg (by omega)]
    dsimp only
    rw [getD_set_self st.fds fd (some gidx) none (by rw [hfds]; omega)]
    dsimp only
    rw [getD_set_self st.handles gidx _ none hglt]
    dsimp only
    rw [if_pos rfl, hsz]
    dsimp only
    rw [if_neg (by simp)]
    exact ⟨rfl, rfl⟩

/-- A backend on which every lookup fails. -/
def missingBackend : Backend :=
  { getFileSize := fun _ => none
    readFile := fun _ _ => none
    writeFile := fun _ _ => false }

/-- C10 (witness): opening a missing path on a fresh state yields a
valid fd and a subsequent read returns 0 bytes. -/
theorem claim10_witness :
    ∃ fd, (vfsOpen missingBackend vinit "nofile").1 = some fd ∧
      3 ≤ fd ∧ fd < 32 ∧
      (missingBackend.getFileSize ("nofile".take 255) = none →
        ∀ len,
          (vfsRead missingBackend (vfsOpen missingBackend vinit "nofile").2
            fd len).1 = 0 ∧
          (vfsRead missingBackend (vfsOpen missingBackend vinit "nofile").2
            fd len).2.1 = []) :=
  claim10_open_missing_path missingBackend vinit "nofile" (by decide)
    ⟨0, by decide⟩ ⟨3, by decide⟩

end LiteCore.Vfs

namespace LiteCore.Heap

/-! ## Kernel heap (src/unnamed/part_007: mem_init / kmalloc / kfree /
heap_expand)

The free list is the address/size view of the in-memory block headers
(`{size, tag, next}`, 16 bytes with padding); `mem` is the byte memory
holding user payloads and canaries; `hdrSize`/`hdrTag` are the header
fields of blocks handed out by `kmalloc` (the C code reads them back in
`kfree` via `ptr - sizeof(block_header_t)`).  32-bit size arithmetic is
taken modulo 2^32 exactly where the C uses `uint32_t`. -/

def U32 : Nat := 4294967296

def ALIGN : Nat := 8

def HEADER : Nat := 16

def KMALLOC_CANARY : Nat := 0xDEADBEEF

/-- `align_up`: `(size + 7) & ~7` in uint32 arithmetic. -/
def align_up (x : Nat) : Nat := (x + 7) % U32 / 8 * 8

/-- Page rounding in `heap_expand`: `(x + 0xFFF) & ~0xFFF` (uint32). -/
def pageAlign (x : Nat) : Nat := (x + 0xFFF) % U32 / 0x1000 * 0x1000

/-- The total block size `kmalloc` needs for a request:
header + user data + canary, aligned. -/
def totalSize (size : Nat) : Nat :=
  (align_up ((align_up size + 4) % U32) + HEADER) % U32

/-- `wanted_with_canary` for a request. -/
def wantedWithCanary (size : Nat) : Nat := align_up ((align_up size + 4) % U32)

structure HState where
  freeList : List (Nat × Nat)
  heapStart : Nat
  heapEnd : Nat
  mem : Nat → Nat
  allocSeq : Nat
  hdrSize : Nat → Nat
  hdrTag : Nat → Nat

/-- Store a 32-bit value little-endian. -/
def writeLE32 (m : Nat → Nat) (addr v : Nat) : Nat → Nat := fun a =>
  if a = addr then v % 256
  else if a = addr + 1 then v / 256 % 256
  else if a = addr + 2 then v / 65536 % 256
  else if a = addr + 3 then v / 16777216 % 256
  else m a

/-- Read a 32-bit little-endian value. -/
def readLE32 (m : Nat → Nat) (addr : Nat) : Nat :=
  m addr % 256 + 256 * (m (addr + 1) % 256) + 65536 * (m (addr + 2) % 256) +
    16777216 * (m (addr + 3) % 256)

/-- The free-list walk of `kmalloc_internal`: drop zero-sized blocks,
take the first block with `total_size ≤ size`, split it when the
remainder leaves a header plus 2·ALIGN user bytes, else take it whole.
Returns the chosen block (address, granted size) and the new list. -/
def kwalk (total : Nat) : List (Nat × Nat) → Option (Nat × Nat) × List (Nat × Nat)
  | [] => (none, [])
  | (a, sz) :: rest =>
    if sz = 0 then kwalk total rest
    else if total ≤ sz then
      if total + HEADER + ALIGN * 2 ≤ sz then
        (some (a, total), (a + total, sz - total) :: rest)
      else
        (some (a, sz), rest)
    else
      let r := kwalk total rest
      (r.1, (a, sz) :: r.2)

/-- Merge the expansion block with its successor if adjacent
(`heap_expand`'s merge-with-next). -/
def mergeNext (blk : Nat × Nat) : List (Nat × Nat) → List (Nat × Nat)
  | [] => [blk]
  | (xa, xsz) :: rest =>
    if blk.1 + blk.2 = xa then (blk.1, blk.2 + xsz) :: rest
    else blk :: (xa, xsz) :: rest

/-- `heap_expand`'s address-ordered insertion of the new block at the
old heap end, merging with the adjacent previous and/or next block. -/
def insertExpandBlock (lst : List (Nat × Nat)) (na add : Nat) :
    List (Nat × Nat) :=
  match lst with
  | [] => [(na, add)]
  | _ =>
    let before := lst.takeWhile fun b => b.1 < na
    let after := lst.dropWhile fun b => b.1 < na
    match before.getLast? with
    | none => mergeNext (na, add) after
    | some (pa, psz) =>
      if pa + psz = na then
        before.dropLast ++ mergeNext (pa, psz + add) after
      else
        before ++ mergeNext (na, add) after

/-- `heap_expand(additional_size)`: round up to a page, carve the block
at `heap_end_addr`, insert it address-sorted (merging with adjacent
neighbours) and advance the heap end.  Always succeeds (returns 0). -/
def heapExpand (h : HState) (additional : Nat) : HState :=
  if additional = 0 then h
  else
    let add := pageAlign additional
    { h with
      freeList := insertExpandBlock h.freeList h.heapEnd add
      heapEnd := h.heapEnd + add }

/-- `kmalloc_internal(size, retry_count)`. -/
def kmallocInternal (h : HState) (size : Nat) (retry : Nat) :
    Option Nat × HState :=
  if size = 0 ∨ h.freeList = [] then (none, h)
  else if 3 < retry then (none, h)
  else
    let total := totalSize size
    match kwalk total h.freeList with
    | (some (a, bsz), rest) =>
      let userPtr := a + HEADER
      (some userPtr,
        { h with
          freeList := rest
          hdrSize := fun x => if x = a then bsz else h.hdrSize x
          hdrTag :=
            if 256 ≤ size then
              fun x => if x = a then h.allocSeq else h.hdrTag x
            else h.hdrTag
          allocSeq := if 256 ≤ size then (h.allocSeq + 1) % U32 else h.allocSeq
          mem := writeLE32 h.mem (userPtr + wantedWithCanary size - 4)
            KMALLOC_CANARY })
    | (none, cleaned) =>
      let expand := if totalSize size < 0x100000 then 0x100000 else totalSize size
      kmallocInternal (heapExpand { h with freeList := cleaned } expand) size
        (retry + 1)
termination_by 4 - retry

def kmalloc (h : HState) (size : Nat) : Option Nat × HState :=
  kmallocInternal h size 0

/-- The insertion step of `kfree`: prepend when the list is empty or the
block sorts first, else walk `cur->next && cur->next < hdr` and insert. -/
def insertFree (lst : List (Nat × Nat)) (blk : Nat × Nat) :
    List (Nat × Nat) :=
  match lst with
  | [] => [blk]
  | (a0, s0) :: rest =>
    if blk.1 < a0 then blk :: (a0, s0) :: rest
    else (a0, s0) :: insAux rest
  where
    insAux : List (Nat × Nat) → List (Nat × Nat)
    | [] => [blk]
    | (y, t) :: rest2 =>
      if y < blk.1 then (y, t) :: insAux rest2
      else blk :: (y, t) :: rest2

/-- The coalescing pass of `kfree`: repeatedly merge adjacent blocks,
staying on a merged block to merge again. -/
def coalesce : List (Nat × Nat) → List (Nat × Nat)
  | [] => []
  | [x] => [x]
  | (a, s) :: (b, t) :: rest =>
    if a + s = b then coalesce ((a, s + t) :: rest)
    else (a, s) :: coalesce ((b, t) :: rest)
termination_by l => l.length

/-- `kfree(ptr)`: NULL and below-heap pointers are ignored; the canary
word at `hdr + hdr->size - 4` is compared against `KMALLOC_CANARY` when
the block is large enough (mismatch is logged — reported here as the
returned flag — but the free still completes); the block is inserted
address-sorted and adjacent free blocks are coalesced. -/
def kfree (h : HState) (ptr : Nat) : HState × Bool :=
  if ptr = 0 then (h, false)
  else
    let hdr := ptr - HEADER
    if hdr < h.heapStart then (h, false)
    else
      let sz := h.hdrSize hdr
      let mismatch :=
        if HEADER + 4 < sz then
          decide (readLE32 h.mem (hdr + sz - 4) ≠ KMALLOC_CANARY)
        else false
      ({ h with freeList := coalesce (insertFree h.freeList (hdr, sz)) },
        mismatch)

end LiteCore.Heap

namespace LiteCore.Heap

theorem kwalk_no_fit {total : Nat} {lst : List (Nat × Nat)}
    (hz : ∀ b ∈ lst, b.2 ≠ 0) (hnf : ∀ b ∈ lst, b.2 < total) :
    kwalk total lst = (none, lst) := by
  induction lst with
  | nil => rfl
  | cons x rest ih =>
    obtain ⟨a, sz⟩ := x
    have hsz : sz ≠ 0 := hz (a, sz) (List.mem_cons_self ..)
    have hlt : sz < total := hnf (a, sz) (List.mem_cons_self ..)
    unfold kwalk
    rw [if_neg hsz, if_neg (by omega)]
    have ihr := ih (fun b hb => hz b (List.mem_cons_of_mem _ hb))
      (fun b hb => hnf b (List.mem_cons_of_mem _ hb))
    rw [ihr]

theorem kwalk_isSome {total : Nat} {lst : List (Nat × Nat)}
    (hfit : ∃ b ∈ lst, b.2 ≠ 0 ∧ total ≤ b.2) :
    (kwalk total lst).1.isSome := by
  induction lst with
  | nil =>
    obtain ⟨b, hb, -⟩ := hfit
    exact absurd hb (List.not_mem_nil b)
  | cons x rest ih =>
    obtain ⟨a, sz⟩ := x
    obtain ⟨b, hb, hb0, hble⟩ := hfit
    unfold kwalk
    by_cases hsz : sz = 0
    · rw [if_pos hsz]
      apply ih
      rcases List.mem_cons.mp hb with rfl | hb
      · exact absurd hsz (by simpa using hb0)
      · exact ⟨b, hb, hb0, hble⟩
    · rw [if_neg hsz]
      by_cases hle : total ≤ sz
      · rw [if_pos hle]
        by_cases hsp : total + HEADER + ALIGN * 2 ≤ sz
        · rw [if_pos hsp]; rfl
        · rw [if_neg hsp]; rfl
      · rw [if_neg hle]
        apply ih
        rcases List.mem_cons.mp hb with rfl | hb
        · exact absurd hble hle
        · exact ⟨b, hb, hb0, hble⟩

theorem kwalk_fit {total : Nat} {lst : List (Nat × Nat)}
    (hz : ∀ b ∈ lst, b.2 ≠ 0)
    (hfit : ∃ b ∈ lst, total ≤ b.2) :
    ∃ a sz suffix,
      lst.dropWhile (fun b => b.2 < total) = (a, sz) :: suffix ∧
      total ≤ sz ∧
      kwalk total lst =
        (if total + HEADER + ALIGN * 2 ≤ sz then
          (some (a, total),
            (lst.takeWhile fun b => b.2 < total) ++
              (a + total, sz - total) :: suffix)
        else
          (some (a, sz), (lst.takeWhile fun b => b.2 < total) ++ suffix)) := by
  induction lst with
  | nil =>
    obtain ⟨b, hb, -⟩ := hfit
    exact absurd hb (List.not_mem_nil b)
  | cons x rest ih =>
    obtain ⟨a, sz⟩ := x
    have hsz : sz ≠ 0 := hz (a, sz) (List.mem_cons_self ..)
    by_cases hle : total ≤ sz
    · refine ⟨a, sz, rest, ?_, hle, ?_⟩
      · rw [List.dropWhile_cons_of_neg (by simp; omega)]
      · unfold kwalk
        rw [if_neg hsz, if_pos hle,
          List.takeWhile_cons_of_neg (by simp; omega)]
        by_cases hsp : total + HEADER + ALIGN * 2 ≤ sz
        · rw [if_pos hsp, if_pos hsp]
          rfl
        · rw [if_neg hsp, if_neg hsp]
          rfl
    · have hfit' : ∃ b ∈ rest, total ≤ b.2 := by
        obtain ⟨b, hb, hble⟩ := hfit
        rcases List.mem_cons.mp hb with rfl | hb
        · exact absurd hble hle
        · exact ⟨b, hb, hble⟩
      obtain ⟨a', sz', suf, hdrop, hle', hkw⟩ :=
        ih (fun b hb => hz b (List.mem_cons_of_mem _ hb)) hfit'
      refine ⟨a', sz', suf, ?_, hle', ?_⟩
      · rw [List.dropWhile_cons_of_pos (by simpa using by omega), hdrop]
      · unfold kwalk
        rw [if_neg hsz, if_neg hle,
          List.takeWhile_cons_of_pos (by simp; omega)]
        by_cases hsp : total + HEADER + ALIGN * 2 ≤ sz'
        · rw [if_pos hsp] at hkw ⊢
          rw [hkw]
          rfl
        · rw [if_neg hsp] at hkw ⊢
          rw [hkw]
          rfl

end LiteCore.Heap

namespace LiteCore.Heap

theorem mergeNext_fit (blk : Nat × Nat) (l : List (Nat × Nat))
    (hb : blk.2 ≠ 0) :
    ∃ c ∈ mergeNext blk l, c.2 ≠ 0 ∧ blk.2 ≤ c.2 := by
  match l with
  | [] => exact ⟨blk, List.mem_singleton_self blk, hb, le_refl _⟩
  | (xa, xsz) :: rest =>
    unfold mergeNext
    dsimp only
    by_cases hadj : blk.1 + blk.2 = xa
    · rw [if_pos hadj]
      exact ⟨(blk.1, blk.2 + xsz), List.mem_cons_self .., by simp; omega,
        by simp⟩
    · rw [if_neg hadj]
      exact ⟨blk, List.mem_cons_self .., hb, le_refl _⟩

theorem insertExpandBlock_fit (lst : List (Nat × Nat)) (na e : Nat)
    (he : e ≠ 0) :
    ∃ c ∈ insertExpandBlock lst na e, c.2 ≠ 0 ∧ e ≤ c.2 := by
  unfold insertExpandBlock
  match lst with
  | [] => exact ⟨(na, e), List.mem_singleton_self _, he, le_refl _⟩
  | y :: ys =>
    dsimp only
    rcases hlast : ((y :: ys).takeWhile fun b => b.1 < na).getLast? with
      _ | ⟨pa, psz⟩
    · rw [hlast]
      obtain ⟨c, hc, hc0, hce⟩ :=
        mergeNext_fit (na, e) ((y :: ys).dropWhile fun b => b.1 < na) he
      exact ⟨c, hc, hc0, hce⟩
    · rw [hlast]
      dsimp only
      by_cases hadj : pa + psz = na
      · rw [if_pos hadj]
        obtain ⟨c, hc, hc0, hce⟩ :=
          mergeNext_fit (pa, psz + e) ((y :: ys).dropWhile fun b => b.1 < na)
            (by simp; omega)
        refine ⟨c, List.mem_append_right _ hc, hc0, ?_⟩
        have : (psz + e : Nat) ≤ c.2 := by simpa using hce
        omega
      · rw [if_neg hadj]
        obtain ⟨c, hc, hc0, hce⟩ :=
          mergeNext_fit (na, e) ((y :: ys).dropWhile fun b => b.1 < na) he
        exact ⟨c, List.mem_append_right _ hc, hc0, hce⟩

theorem kmallocInternal_some (h : HState) (size retry : Nat)
    (hs : size ≠ 0) (hr : retry ≤ 3)
    (hfit : ∃ b ∈ h.freeList, b.2 ≠ 0 ∧ totalSize size ≤ b.2) :
    (kmallocInternal h size retry).1.isSome := by
  have hne : h.freeList ≠ [] := by
    obtain ⟨b, hb, -⟩ := hfit
    intro he
    rw [he] at hb
    exact List.not_mem_nil b hb
  unfold kmallocInternal
  rw [if_neg (by push_neg; exact ⟨hs, hne⟩), if_neg (by omega)]
  dsimp only
  have hsome := kwalk_isSome hfit
  rcases hk : kwalk (totalSize size) h.freeList with ⟨o, rest⟩
  rcases o with _ | ⟨a, bsz⟩
  · rw [hk] at hsome
    simp at hsome
  · rfl

theorem kmallocInternal_expand_step (h : HState) (size retry : Nat)
    (hs : ¬(size = 0 ∨ h.freeList = [])) (hr : ¬ 3 < retry)
    (hkw : kwalk (totalSize size) h.freeList = (none, h.freeList)) :
    kmallocInternal h size retry =
      kmallocInternal
        (heapExpand h
          (if totalSize size < 0x100000 then 0x100000 else totalSize size))
        size (retry + 1) := by
  conv_lhs => unfold kmallocInternal
  rw [if_neg hs, if_neg hr]
  dsimp only
  rw [hkw]

end LiteCore.Heap

namespace LiteCore.Heap

/-- C4 (amended): when the free list is nonempty, `kmalloc` takes the
first fitting block of the free-list walk, splitting it exactly when
the remainder leaves a header plus 2·ALIGN (16) user bytes; when no
block fits it performs one expansion of `max(total_size, 1 MiB)`
rounded up to a page, inserted into the free list (merging with
adjacent blocks), and the single retry succeeds.  (If the free list is
empty, `kmalloc` returns NULL without expanding — see the
counterexample.) -/
theorem claim4_kmalloc_algorithm :
    (∀ (h : HState) (size : Nat), size ≠ 0 →
      (∀ b ∈ h.freeList, b.2 ≠ 0) →
      (∃ b ∈ h.freeList, totalSize size ≤ b.2) →
      ∃ a sz suffix,
        h.freeList.dropWhile (fun b => b.2 < totalSize size) =
          (a, sz) :: suffix ∧
        totalSize size ≤ sz ∧
        (kmalloc h size).1 = some (a + HEADER) ∧
        (kmalloc h size).2.hdrSize a =
          (if totalSize size + HEADER + ALIGN * 2 ≤ sz then totalSize size
           else sz) ∧
        (kmalloc h size).2.freeList =
          (if totalSize size + HEADER + ALIGN * 2 ≤ sz then
            (h.freeList.takeWhile fun b => b.2 < totalSize size) ++
              (a + totalSize size, sz - totalSize size) :: suffix
          else
            (h.freeList.takeWhile fun b => b.2 < totalSize size) ++ suffix)) ∧
    (∀ (h : HState) (size : Nat), size ≠ 0 → h.freeList ≠ [] →
      (∀ b ∈ h.freeList, b.2 ≠ 0) →
      (∀ b ∈ h.freeList, b.2 < totalSize size) →
      totalSize size ≤ 4294963200 →
      totalSize size ≤
        pageAlign
          (if totalSize size < 0x100000 then 0x100000 else totalSize size) ∧
      0x100000 ≤
        pageAlign
          (if totalSize size < 0x100000 then 0x100000 else totalSize size) ∧
      pageAlign
          (if totalSize size < 0x100000 then 0x100000 else totalSize size) %
        0x1000 = 0 ∧
      kmalloc h size =
        kmallocInternal
          { h with
            freeList :=
              insertExpandBlock h.freeList h.heapEnd
                (pageAlign
                  (if totalSize size < 0x100000 then 0x100000
                   else totalSize size))
            heapEnd :=
              h.heapEnd +
                pageAlign
                  (if totalSize size < 0x100000 then 0x100000
                   else totalSize size) }
          size 1 ∧
      (kmalloc h size).1.isSome) := by
  constructor
  · intro h size hs hz hfit
    obtain ⟨a, sz, suffix, hdrop, hle, hkw⟩ := kwalk_fit hz hfit
    have hne : h.freeList ≠ [] := by
      obtain ⟨b, hb, -⟩ := hfit
      intro he
      rw [he] at hb
      exact List.not_mem_nil b hb
    refine ⟨a, sz, suffix, hdrop, hle, ?_⟩
    unfold kmalloc
    unfold kmallocInternal
    rw [if_neg (by push_neg; exact ⟨hs, hne⟩), if_neg (by omega)]
    dsimp only
    by_cases hsp : totalSize size + HEADER + ALIGN * 2 ≤ sz
    · rw [if_pos hsp] at hkw
      simp only [if_pos hsp]
      rw [hkw]
      dsimp only
      refine ⟨rfl, ?_, rfl⟩
      show (if a = a then totalSize size else h.hdrSize a) = totalSize size
      rw [if_pos rfl]
    · rw [if_neg hsp] at hkw
      simp only [if_neg hsp]
      rw [hkw]
      dsimp only
      refine ⟨rfl, ?_, rfl⟩
      show (if a = a then sz else h.hdrSize a) = sz
      rw [if_pos rfl]
  · intro h size hs hne hz hnf hbound
    have htot : 0 < totalSize size := by
      obtain ⟨b, hb⟩ : ∃ b, b ∈ h.freeList := by
        cases hl : h.freeList with
        | nil => exact absurd hl hne
        | cons b rest =>
          exact ⟨b, List.mem_cons_self ..⟩
      have := hz b hb
      have := hnf b hb
      omega
    have hm :
        (if totalSize size < 0x100000 then 0x100000 else totalSize size) ≠
          0 := by
      by_cases hc : totalSize size < 0x100000
      · rw [if_pos hc]; omega
      · rw [if_neg hc]; omega
    have hmle :
        (if totalSize size < 0x100000 then 0x100000 else totalSize size) ≤
          4294963200 := by
      by_cases hc : totalSize size < 0x100000
      · rw [if_pos hc]; omega
      · rw [if_neg hc]; omega
    have hpage :
        pageAlign
          (if totalSize size < 0x100000 then 0x100000 else totalSize size) =
        ((if totalSize size < 0x100000 then 0x100000 else totalSize size) +
          0xFFF) / 0x1000 * 0x1000 := by
      unfold pageAlign
      rw [Nat.mod_eq_of_lt (by unfold U32; omega)]
    have h1 : totalSize size ≤
        pageAlign
          (if totalSize size < 0x100000 then 0x100000 else totalSize size) := by
      rw [hpage]
      by_cases hc : totalSize size < 0x100000
      · rw [if_pos hc]; omega
      · rw [if_neg hc]; omega
    have h2 : 0x100000 ≤
        pageAlign
          (if totalSize size < 0x100000 then 0x100000 else totalSize size) := by
      rw [hpage]
      by_cases hc : totalSize size < 0x100000
      · rw [if_pos hc]
      · rw [if_neg hc]; omega
    have h3 :
        pageAlign
            (if totalSize size < 0x100000 then 0x100000 else totalSize size) %
          0x1000 = 0 := by
      rw [hpage]
      exact Nat.mul_mod_left _ _
    have hexp :
        heapExpand h
          (if totalSize size < 0x100000 then 0x100000 else totalSize size) =
        { h with
          freeList :=
            insertExpandBlock h.freeList h.heapEnd
              (pageAlign
                (if totalSize size < 0x100000 then 0x100000
                 else totalSize size))
          heapEnd :=
            h.heapEnd +
              pageAlign
                (if totalSize size < 0x100000 then 0x100000
                 else totalSize size) } := by
      unfold heapExpand
      rw [if_neg hm]
    have hstep := kmallocInternal_expand_step h size 0
      (by push_neg; exact ⟨hs, hne⟩) (by omega) (kwalk_no_fit hz hnf)
    refine ⟨h1, h2, h3, ?_, ?_⟩
    · show kmalloc h size = _
      unfold kmalloc
      rw [hstep, hexp]
    · show (kmalloc h size).1.isSome
      unfold kmalloc
      rw [hstep, hexp]
      apply kmallocInternal_some _ _ _ hs (by omega)
      obtain ⟨c, hc, hc0, hce⟩ :=
        insertExpandBlock_fit h.freeList h.heapEnd
          (pageAlign
            (if totalSize size < 0x100000 then 0x100000 else totalSize size))
          (by omega)
      exact ⟨c, hc, hc0, by omega⟩

/-- The empty-free-list heap used for the C4 counterexample. -/
def emptyHeap : HState :=
  { freeList := [], heapStart := 0x100000, heapEnd := 0x300000
    mem := fun _ => 0, allocSeq := 1, hdrSize := fun _ => 0
    hdrTag := fun _ => 0 }

/-- C4 (counterexample): with an empty free list (every block handed
out), no block fits, yet `kmalloc` returns NULL immediately — no
expansion is requested (the heap end does not move) and there is no
retry, contradicting the claim that an unsatisfiable request always
triggers an expansion and a retry. -/
theorem claim4_counterexample :
    (kmalloc emptyHeap 64).1 = none ∧
    (kmalloc emptyHeap 64).2.heapEnd = emptyHeap.heapEnd ∧
    (kmalloc emptyHeap 64).2.freeList = [] := by
  have hv : kmalloc emptyHeap 64 = (none, emptyHeap) := by
    unfold kmalloc kmallocInternal
    rw [if_pos (show (64 = 0 ∨ emptyHeap.freeList = []) from Or.inr rfl)]
  rw [hv]
  exact ⟨rfl, rfl, rfl⟩

/-- C4 (witness): the first-fit/split part applied to a concrete heap
with two free blocks (the first too small), and the expansion part
applied to a concrete heap whose single block is too small. -/
theorem claim4_witness :
    (∃ a sz suffix,
      ([(0x100000, 32), (0x200000, 4096)] :
          List (Nat × Nat)).dropWhile
          (fun b => b.2 < totalSize 100) = (a, sz) :: suffix ∧
      totalSize 100 ≤ sz ∧
      (kmalloc
        { freeList := [(0x100000, 32), (0x200000, 4096)]
          heapStart := 0x100000, heapEnd := 0x300000, mem := fun _ => 0
          allocSeq := 1, hdrSize := fun _ => 0, hdrTag := fun _ => 0 }
        100).1 = some (a + HEADER) ∧
      (kmalloc
        { freeList := [(0x100000, 32), (0x200000, 4096)]
          heapStart := 0x100000, heapEnd := 0x300000, mem := fun _ => 0
          allocSeq := 1, hdrSize := fun _ => 0, hdrTag := fun _ => 0 }
        100).2.hdrSize a =
        (if totalSize 100 + HEADER + ALIGN * 2 ≤ sz then totalSize 100
         else sz) ∧
      (kmalloc
        { freeList := [(0x100000, 32), (0x200000, 4096)]
          heapStart := 0x100000, heapEnd := 0x300000, mem := fun _ => 0
          allocSeq := 1, hdrSize := fun _ => 0, hdrTag := fun _ => 0 }
        100).2.freeList =
        (if totalSize 100 + HEADER + ALIGN * 2 ≤ sz then
          (([(0x100000, 32), (0x200000, 4096)] :
              List (Nat × Nat)).takeWhile
              fun b => b.2 < totalSize 100) ++
            (a + totalSize 100, sz - totalSize 100) :: suffix
        else
          (([(0x100000, 32), (0x200000, 4096)] :
              List (Nat × Nat)).takeWhile
              fun b => b.2 < totalSize 100) ++ suffix)) ∧
    (kmalloc
      { freeList := [(0x100000, 32)], heapStart := 0x100000
        heapEnd := 0x300000, mem := fun _ => 0, allocSeq := 1
        hdrSize := fun _ => 0, hdrTag := fun _ => 0 }
      100).1.isSome :=
  ⟨claim4_kmalloc_algorithm.1
      { freeList := [(0x100000, 32), (0x200000, 4096)]
        heapStart := 0x100000, heapEnd := 0x300000, mem := fun _ => 0
        allocSeq := 1, hdrSize := fun _ => 0, hdrTag := fun _ => 0 }
      100 (by decide) (by decide) ⟨(0x200000, 4096), by decide, by decide⟩,
    (claim4_kmalloc_algorithm.2
      { freeList := [(0x100000, 32)], heapStart := 0x100000
        heapEnd := 0x300000, mem := fun _ => 0, allocSeq := 1
        hdrSize := fun _ => 0, hdrTag := fun _ => 0 }
      100 (by decide) (by decide) (by decide) (by decide)
      (by decide)).2.2.2.2⟩

end LiteCore.Heap

namespace LiteCore.Heap

theorem readLE32_writeLE32 (m : Nat → Nat) (addr v : Nat) (hv : v < U32) :
    readLE32 (writeLE32 m addr v) addr = v := by
  unfold readLE32 writeLE32
  rw [if_pos rfl,
    if_neg (by omega : ¬ addr + 1 = addr), if_pos rfl,
    if_neg (by omega : ¬ addr + 2 = addr),
    if_neg (by omega : ¬ addr + 2 = addr + 1), if_pos rfl,
    if_neg (by omega : ¬ addr + 3 = addr),
    if_neg (by omega : ¬ addr + 3 = addr + 1),
    if_neg (by omega : ¬ addr + 3 = addr + 2), if_pos rfl]
  unfold U32 at hv
  omega

theorem heapExpand_fields (h : HState) (e : Nat) :
    (heapExpand h e).mem = h.mem ∧ (heapExpand h e).hdrSize = h.hdrSize ∧
    (heapExpand h e).heapStart = h.heapStart := by
  unfold heapExpand
  by_cases he : e = 0
  · rw [if_pos he]
    exact ⟨rfl, rfl, rfl⟩
  · rw [if_neg he]
    exact ⟨rfl, rfl, rfl⟩

theorem kmallocInternal_canary (n : Nat) :
    ∀ (retry : Nat), 4 - retry = n →
    ∀ (h : HState) (size ptr : Nat) (h' : HState),
      kmallocInternal h size retry = (some ptr, h') →
      HEADER ≤ ptr ∧
      h'.heapStart = h.heapStart ∧
      h'.mem = writeLE32 h.mem (ptr + wantedWithCanary size - 4)
        KMALLOC_CANARY := by
  induction n with
  | zero =>
    intro retry hn h size ptr h' hk
    unfold kmallocInternal at hk
    by_cases hg : size = 0 ∨ h.freeList = []
    · rw [if_pos hg] at hk
      exact absurd (Prod.mk.injEq .. ▸ hk).1 (by simp)
    · rw [if_neg hg, if_pos (by omega)] at hk
      exact absurd (Prod.mk.injEq .. ▸ hk).1 (by simp)
  | succ n ih =>
    intro retry hn h size ptr h' hk
    unfold kmallocInternal at hk
    by_cases hg : size = 0 ∨ h.freeList = []
    · rw [if_pos hg] at hk
      exact absurd (Prod.mk.injEq .. ▸ hk).1 (by simp)
    · rw [if_neg hg] at hk
      by_cases hr : 3 < retry
      · rw [if_pos hr] at hk
        exact absurd (Prod.mk.injEq .. ▸ hk).1 (by simp)
      · rw [if_neg hr] at hk
        dsimp only at hk
        rcases hkw : kwalk (totalSize size) h.freeList with ⟨o, rest⟩
        rw [hkw] at hk
        rcases o with _ | ⟨a, bsz⟩
        · dsimp only at hk
          obtain ⟨h1, h2, h3⟩ := ih (retry + 1) (by omega) _ size ptr h' hk
          obtain ⟨hm, -, hst⟩ := heapExpand_fields
            { h with freeList := rest }
            (if totalSize size < 0x100000 then 0x100000 else totalSize size)
          refine ⟨h1, ?_, ?_⟩
          · rw [h2, hst]
          · rw [h3, hm]
        · dsimp only at hk
          obtain ⟨hp, hs⟩ := Prod.mk.injEq .. ▸ hk
          obtain hp2 := Option.some.injEq .. ▸ hp
          subst hs
          refine ⟨by omega, rfl, ?_⟩
          rw [← hp2]

/-- C8 (amended): (i) every successful `kmalloc(size)` writes the
32-bit canary at the end of the aligned user area,
`user_ptr + wanted_with_canary - 4`; (ii) `kfree` compares the word at
`hdr + hdr->size - 4` against the canary whenever the block is large
enough, reports (logs) a mismatch, and always completes the free — the
block is inserted into the free list and coalesced regardless of the
flag; (iii) for a split allocation (`hdr->size = total_size`) the
checked word is exactly the one kmalloc wrote: with the block's memory
untouched kfree reports no mismatch, and an overwrite is flagged if and
only if it changes that 4-byte word.  (A write past the requested
payload that lands in the ≤11 bytes of alignment padding does NOT
change that word and is NOT detected — see the counterexample.) -/
theorem claim8_canary :
    (∀ (h : HState) (size ptr : Nat) (h' : HState),
      kmalloc h size = (some ptr, h') →
      readLE32 h'.mem (ptr + wantedWithCanary size - 4) = KMALLOC_CANARY) ∧
    (∀ (h : HState) (ptr : Nat), ptr ≠ 0 → ¬(ptr - HEADER < h.heapStart) →
      (kfree h ptr).1.freeList =
        coalesce (insertFree h.freeList
          (ptr - HEADER, h.hdrSize (ptr - HEADER))) ∧
      ((kfree h ptr).2 = true ↔
        HEADER + 4 < h.hdrSize (ptr - HEADER) ∧
        readLE32 h.mem (ptr - HEADER + h.hdrSize (ptr - HEADER) - 4) ≠
          KMALLOC_CANARY)) ∧
    (∀ (h : HState) (size ptr : Nat) (h' : HState) (m' : Nat → Nat),
      kmalloc h size = (some ptr, h') →
      h'.hdrSize (ptr - HEADER) = totalSize size →
      ¬(ptr - HEADER < h'.heapStart) →
      size + 64 < U32 →
      ((kfree { h' with mem := m' } ptr).2 = true ↔
        readLE32 m' (ptr + wantedWithCanary size - 4) ≠ KMALLOC_CANARY) ∧
      (kfree h' ptr).2 = false) := by
  have hfree : ∀ (h : HState) (ptr : Nat), ptr ≠ 0 →
      ¬(ptr - HEADER < h.heapStart) →
      kfree h ptr =
        ({ h with freeList := coalesce (insertFree h.freeList
            (ptr - HEADER, h.hdrSize (ptr - HEADER))) },
          if HEADER + 4 < h.hdrSize (ptr - HEADER) then
            decide (readLE32 h.mem
              (ptr - HEADER + h.hdrSize (ptr - HEADER) - 4) ≠ KMALLOC_CANARY)
          else false) := by
    intro h ptr hp hst
    unfold kfree
    rw [if_neg hp, if_neg hst]
  have hsize : ∀ (h : HState) (size : Nat) (ptr : Nat) (h' : HState),
      kmalloc h size = (some ptr, h') → size ≠ 0 := by
    intro h size ptr h' hk
    intro hs
    unfold kmalloc kmallocInternal at hk
    rw [if_pos (Or.inl hs)] at hk
    exact absurd (Prod.mk.injEq .. ▸ hk).1 (by simp)
  refine ⟨?_, ?_, ?_⟩
  · intro h size ptr h' hk
    obtain ⟨hple, -, hmem⟩ :=
      kmallocInternal_canary (4 - 0) 0 rfl h size ptr h' hk
    rw [hmem]
    exact readLE32_writeLE32 _ _ _ (by unfold KMALLOC_CANARY U32; omega)
  · intro h ptr hp hst
    rw [hfree h ptr hp hst]
    constructor
    · rfl
    · by_cases hc : HEADER + 4 < h.hdrSize (ptr - HEADER)
      · rw [if_pos hc]
        simp [hc]
      · rw [if_neg hc]
        simp [hc]
  · intro h size ptr h' m' hk hsz hst hsb
    obtain ⟨hple, -, hmem⟩ :=
      kmallocInternal_canary (4 - 0) 0 rfl h size ptr h' hk
    have hs0 : size ≠ 0 := hsize h size ptr h' hk
    have key : totalSize size = wantedWithCanary size + HEADER ∧
        4 < wantedWithCanary size := by
      unfold U32 at hsb
      unfold totalSize wantedWithCanary align_up HEADER U32
      omega
    have htot := key.1
    have hchk : HEADER + 4 < totalSize size := by
      rw [htot]
      unfold HEADER
      omega
    have hpos : ptr - HEADER + h'.hdrSize (ptr - HEADER) - 4 =
        ptr + wantedWithCanary size - 4 := by
      rw [hsz, htot]
      unfold HEADER at hple ⊢
      omega
    constructor
    · rw [hfree { h' with mem := m' } ptr (by unfold HEADER at hple; omega)
        hst]
      show (if HEADER + 4 < h'.hdrSize (ptr - HEADER) then _ else false) =
          true ↔ _
      rw [if_pos (by rw [hsz]; exact hchk), hpos]
      simp
    · rw [hfree h' ptr (by unfold HEADER at hple; omega) hst]
      show (if HEADER + 4 < h'.hdrSize (ptr - HEADER) then _ else false) =
          false
      rw [if_pos (by rw [hsz]; exact hchk), hpos, hmem,
        readLE32_writeLE32 _ _ _ (by unfold KMALLOC_CANARY U32; omega)]
      simp

end LiteCore.Heap

namespace LiteCore.Heap

/-- A concrete heap: one free block of 4096 bytes at 4096. -/
def cex8H : HState where
  freeList := [(4096, 4096)]
  heapStart := 4096
  heapEnd := 8192
  mem := fun _ => 0
  allocSeq := 1
  hdrSize := fun _ => 0
  hdrTag := fun _ => 0

/-- The heap after `kmalloc(1)` on `cex8H`: the block is split
(granted size 32 = total_size(1)), the user pointer is 4112, and the
canary sits at 4124 = 4112 + wanted_with_canary(1) - 4. -/
def cex8H1 : HState where
  freeList := [(4128, 4064)]
  heapStart := 4096
  heapEnd := 8192
  mem := writeLE32 (fun _ => 0) 4124 KMALLOC_CANARY
  allocSeq := 1
  hdrSize := fun x => if x = 4096 then 32 else 0
  hdrTag := fun _ => 0

/-- `cex8H1` after the user writes the byte 171 at address 4113 —
one byte PAST the requested 1-byte payload [4112, 4113), but inside
the 11 bytes of alignment padding before the canary word at 4124. -/
def cex8Bad : HState :=
  { cex8H1 with mem := fun a => if a = 4113 then 171 else cex8H1.mem a }

/-- C8 counterexample: `kmalloc(1)` returns pointer 4112 with canary
word at 4124; the user then writes past the requested 1-byte payload
(byte 171 at 4113, which is past the payload end 4113 ≤ 4113 and below
the canary word 4113 + 1 ≤ 4124, and really changes memory), yet
`kfree(4112)` reports NO canary mismatch: the canary protects only the
aligned end of the user area, so an overflow landing in the up-to-11
bytes of alignment padding is not detected.  This refutes "any write
past the requested size-byte payload is detected as a canary mismatch
on kfree". -/
theorem claim8_counterexample :
    kmalloc cex8H 1 = (some 4112, cex8H1) ∧
    (4112 + 1 ≤ 4113 ∧ 4113 + 4 ≤ 4124 + 1) ∧
    cex8Bad.mem 4113 ≠ cex8H1.mem 4113 ∧
    (kfree cex8Bad 4112).2 = false := by
  refine ⟨?_, by decide, by decide, by decide⟩
  unfold kmalloc kmallocInternal
  rw [if_neg (by decide : ¬(1 = 0 ∨ cex8H.freeList = [])),
    if_neg (by decide : ¬(3:Nat) < 0)]
  rfl

/-- C8 witness: the kfree clauses of the amended theorem applied at the
concrete heap `cex8H1` produced by `kmalloc(1)` on `cex8H`. -/
theorem claim8_witness :
    ((kfree cex8H1 4112).1.freeList =
        coalesce (insertFree cex8H1.freeList
          (4112 - HEADER, cex8H1.hdrSize (4112 - HEADER))) ∧
      ((kfree cex8H1 4112).2 = true ↔
        HEADER + 4 < cex8H1.hdrSize (4112 - HEADER) ∧
        readLE32 cex8H1.mem
          (4112 - HEADER + cex8H1.hdrSize (4112 - HEADER) - 4) ≠
          KMALLOC_CANARY)) ∧
    (((kfree { cex8H1 with mem := cex8Bad.mem } 4112).2 = true ↔
        readLE32 cex8Bad.mem (4112 + wantedWithCanary 1 - 4) ≠
          KMALLOC_CANARY) ∧
      (kfree cex8H1 4112).2 = false) := by
  have hk : kmalloc cex8H 1 = (some 4112, cex8H1) := by
    unfold kmalloc kmallocInternal
    rw [if_neg (by decide : ¬(1 = 0 ∨ cex8H.freeList = [])),
      if_neg (by decide : ¬(3:Nat) < 0)]
    rfl
  exact ⟨claim8_canary.2.1 cex8H1 4112 (by decide) (by decide),
    claim8_canary.2.2 cex8H 1 4112 cex8H1 cex8Bad.mem hk (by decide)
      (by decide) (by decide)⟩

end LiteCore.Heap

namespace LiteCore.BCache

def U32 : Nat := 4294967296

/-- struct block_cache_entry: block number, LRU timestamp, dirty/valid
flags, and the block_size+4-byte data buffer. -/
structure CacheEntry where
  block_num : Nat
  last_used : Nat
  dirty : Bool
  valid : Bool
  data : List Nat

def dfltEntry : CacheEntry :=
  { block_num := 0, last_used := 0, dirty := false, valid := false, data := [] }

/-- struct block_cache (entries as a list of length num_entries). -/
structure BlockCache where
  drive : Nat
  block_size : Nat
  num_entries : Nat
  timestamp : Nat
  hits : Nat
  misses : Nat
  entries : List CacheEntry

/-- `ata_read_sectors(drive, lba, count, buf)` of the ideal sector
device: the byte stream of sectors [lba, lba+count). -/
def ataRead (d : Nat → List Nat) (lba : Nat) : Nat → List Nat
  | 0 => []
  | Nat.succ count => d lba ++ ataRead d (lba + 1) count

/-- `ata_write_sectors(drive, lba, count, buf)`: sectors [lba, lba+count)
now hold the corresponding 512-byte slices of the buffer. -/
def ataWrite (d : Nat → List Nat) (lba count : Nat) (buf : List Nat) :
    Nat → List Nat := fun s =>
  if lba ≤ s ∧ s < lba + count then (buf.drop ((s - lba) * 512)).take 512
  else d s

/-- The ≤255-sector chunk loop of `read_block_from_disk` (fuel bounds the
iteration count; each pass reads min(255, remaining) sectors). -/
def readChunksAux (d : Nat → List Nat) : Nat → Nat → Nat → List Nat
  | 0, _, _ => []
  | Nat.succ fuel, start, rem =>
    if rem = 0 then []
    else
      let count := if 255 < rem then 255 else rem
      ataRead d start count ++ readChunksAux d fuel (start + count) (rem - count)

def sectorsPerBlock (c : BlockCache) : Nat := c.block_size / 512

/-- `read_block_from_disk`: block_num * sectors_per_block is the start
sector; the chunk loop reads sectors_per_block sectors. -/
def read_block_from_disk (c : BlockCache) (d : Nat → List Nat)
    (block_num : Nat) : List Nat :=
  readChunksAux d (sectorsPerBlock c) (block_num * sectorsPerBlock c)
    (sectorsPerBlock c)

/-- The ≤255-sector chunk loop of `write_block_to_disk`. -/
def writeChunksAux : (Nat → List Nat) → Nat → Nat → Nat → List Nat →
    Nat → List Nat
  | d, 0, _, _, _ => d
  | d, Nat.succ fuel, start, rem, buf =>
    if rem = 0 then d
    else
      let count := if 255 < rem then 255 else rem
      writeChunksAux (ataWrite d start count buf) fuel (start + count)
        (rem - count) (buf.drop (count * 512))

def write_block_to_disk (c : BlockCache) (d : Nat → List Nat)
    (block_num : Nat) (buf : List Nat) : Nat → List Nat :=
  writeChunksAux d (sectorsPerBlock c) (block_num * sectorsPerBlock c)
    (sectorsPerBlock c) buf

/-- `find_lru_entry`'s loop: the first invalid entry is returned
immediately; otherwise the entry with the smallest last_used (strict
improvement over the running minimum, which starts at 0xFFFFFFFF) wins.
Returns the entry's index. -/
def findLruScan : List CacheEntry → Nat → Nat → Option Nat → Option Nat
  | [], _, _, best => best
  | e :: rest, i, oldest, best =>
    if e.valid = false then some i
    else if e.last_used < oldest then
      findLruScan rest (i + 1) e.last_used (some i)
    else findLruScan rest (i + 1) oldest best

def find_lru_entry (c : BlockCache) : Option Nat :=
  findLruScan c.entries 0 4294967295 none

/-- The cache-hit search loop: first entry with `valid && block_num ==`. -/
def hitIdx (entries : List CacheEntry) (block_num : Nat) : Option Nat :=
  entries.findIdx? fun e => e.valid && e.block_num == block_num

/-- `block_cache_read`: on a hit copy out of the entry; on a miss evict
the LRU entry (writing it back if dirty), read the block from disk into
it and copy out. `none` models the C function's -1. -/
def block_cache_read (c : BlockCache) (d : Nat → List Nat)
    (block_num : Nat) : Option (BlockCache × (Nat → List Nat) × List Nat) :=
  let ts := (c.timestamp + 1) % U32
  match hitIdx c.entries block_num with
  | some i =>
    let e := c.entries.getD i dfltEntry
    some ({ c with
        timestamp := ts
        hits := (c.hits + 1) % U32
        entries := c.entries.set i { e with last_used := ts } },
      d, e.data.take c.block_size)
  | none =>
    match find_lru_entry c with
    | none => none
    | some i =>
      let e := c.entries.getD i dfltEntry
      let d1 := if e.valid && e.dirty then
          write_block_to_disk c d e.block_num e.data
        else d
      let newData := read_block_from_disk c d1 block_num
      let e2 : CacheEntry :=
        { block_num := block_num, last_used := ts, valid := true,
          dirty := false, data := newData ++ e.data.drop c.block_size }
      some ({ c with
          timestamp := ts
          misses := (c.misses + 1) % U32
          entries := c.entries.set i e2 },
        d1, e2.data.take c.block_size)

/-- `block_cache_write`: on a hit update the entry in place and mark it
dirty; on a miss evict the LRU entry (writing it back if dirty) and
fill it from the buffer, marked dirty. No disk write of the new data. -/
def block_cache_write (c : BlockCache) (d : Nat → List Nat)
    (block_num : Nat) (buf : List Nat) :
    Option (BlockCache × (Nat → List Nat)) :=
  let ts := (c.timestamp + 1) % U32
  match hitIdx c.entries block_num with
  | some i =>
    let e := c.entries.getD i dfltEntry
    some ({ c with
        timestamp := ts
        entries := c.entries.set i
          { e with
            data := buf.take c.block_size ++ e.data.drop c.block_size
            last_used := ts
            dirty := true } }, d)
  | none =>
    match find_lru_entry c with
    | none => none
    | some i =>
      let e := c.entries.getD i dfltEntry
      let d1 := if e.valid && e.dirty then
          write_block_to_disk c d e.block_num e.data
        else d
      let e2 : CacheEntry :=
        { block_num := block_num, last_used := ts, valid := true,
          dirty := true,
          data := buf.take c.block_size ++ e.data.drop c.block_size }
      some ({ c with
          timestamp := ts
          entries := c.entries.set i e2 }, d1)

/-- `block_cache_flush`'s loop: write every valid dirty entry back to
disk (in entry order) and clear its dirty bit. -/
def flushAux (c : BlockCache) :
    List CacheEntry → (Nat → List Nat) → List CacheEntry × (Nat → List Nat)
  | [], d => ([], d)
  | e :: rest, d =>
    if e.valid && e.dirty then
      let d1 := write_block_to_disk c d e.block_num e.data
      let r := flushAux c rest d1
      ({ e with dirty := false } :: r.1, r.2)
    else
      let r := flushAux c rest d
      (e :: r.1, r.2)

def block_cache_flush (c : BlockCache) (d : Nat → List Nat) :
    BlockCache × (Nat → List Nat) :=
  let r := flushAux c c.entries d
  ({ c with entries := r.1 }, r.2)

/-- `block_cache_destroy`: flush, then free everything; only the disk
survives. -/
def block_cache_destroy (c : BlockCache) (d : Nat → List Nat) :
    Nat → List Nat :=
  (block_cache_flush c d).2

/-- A fresh entry of `block_cache_init`: invalid, clean, with a
kmalloc'd block_size+4-byte buffer (modelled zero-filled; it is never
read while invalid). -/
def initEntry (block_size : Nat) : CacheEntry :=
  { block_num := 0, last_used := 0, dirty := false, valid := false,
    data := List.replicate (block_size + 4) 0 }

/-- `block_cache_init(drive, block_size, num_entries)` (kmalloc modelled
as succeeding). -/
def block_cache_init (drive block_size num_entries : Nat) : BlockCache :=
  { drive := drive, block_size := block_size, num_entries := num_entries,
    timestamp := 0, hits := 0, misses := 0,
    entries := List.replicate num_entries (initEntry block_size) }

end LiteCore.BCache

namespace LiteCore.BCache

theorem ataRead_append (d : Nat → List Nat) (c1 : Nat) :
    ∀ (lba c2 : Nat),
      ataRead d lba (c1 + c2) = ataRead d lba c1 ++ ataRead d (lba + c1) c2 := by
  induction c1 with
  | zero =>
    intro lba c2
    simp [ataRead]
  | succ n ih =>
    intro lba c2
    rw [show n + 1 + c2 = (n + c2) + 1 from by omega]
    show d lba ++ ataRead d (lba + 1) (n + c2) =
      (d lba ++ ataRead d (lba + 1) n) ++ ataRead d (lba + (n + 1)) c2
    rw [ih (lba + 1) c2, List.append_assoc,
      show lba + 1 + n = lba + (n + 1) from by omega]

/-- The read chunk loop reads exactly the `rem` sectors from `start`
when given enough fuel. -/
theorem readChunksAux_eq (d : Nat → List Nat) (fuel : Nat) :
    ∀ (start rem : Nat), rem ≤ fuel →
      readChunksAux d fuel start rem = ataRead d start rem := by
  induction fuel with
  | zero =>
    intro start rem h
    have h0 : rem = 0 := by omega
    subst h0
    rfl
  | succ n ih =>
    intro start rem h
    unfold readChunksAux
    by_cases h0 : rem = 0
    · subst h0
      rfl
    · rw [if_neg h0]
      generalize hcnt : (if 255 < rem then 255 else rem) = cnt
      have hc : 1 ≤ cnt ∧ cnt ≤ rem := by
        rw [← hcnt]
        by_cases h255 : 255 < rem
        · rw [if_pos h255]; omega
        · rw [if_neg h255]; omega
      show ataRead d start cnt ++ readChunksAux d n (start + cnt) (rem - cnt) =
        ataRead d start rem
      rw [ih (start + cnt) (rem - cnt) (by omega)]
      have hsplit : ataRead d start rem =
          ataRead d start cnt ++ ataRead d (start + cnt) (rem - cnt) := by
        rw [← ataRead_append d cnt start (rem - cnt),
          show cnt + (rem - cnt) = rem from by omega]
      rw [hsplit]

/-- The write chunk loop's effect on the disk: sectors [start, start+rem)
become the 512-byte slices of the buffer; others are untouched. -/
theorem writeChunksAux_eq (fuel : Nat) :
    ∀ (d : Nat → List Nat) (start rem : Nat) (buf : List Nat) (s : Nat),
      rem ≤ fuel →
      writeChunksAux d fuel start rem buf s =
        if start ≤ s ∧ s < start + rem then
          (buf.drop ((s - start) * 512)).take 512
        else d s := by
  induction fuel with
  | zero =>
    intro d start rem buf s h
    have h0 : rem = 0 := by omega
    subst h0
    rw [if_neg (by omega)]
    rfl
  | succ n ih =>
    intro d start rem buf s h
    by_cases h0 : rem = 0
    · subst h0
      rw [if_neg (by omega)]
      rfl
    · unfold writeChunksAux
      rw [if_neg h0]
      generalize hcnt : (if 255 < rem then 255 else rem) = cnt
      have hc : 1 ≤ cnt ∧ cnt ≤ rem := by
        rw [← hcnt]
        by_cases h255 : 255 < rem
        · rw [if_pos h255]; omega
        · rw [if_neg h255]; omega
      show writeChunksAux (ataWrite d start cnt buf) n (start + cnt)
        (rem - cnt) (buf.drop (cnt * 512)) s = _
      rw [ih (ataWrite d start cnt buf) (start + cnt) (rem - cnt)
        (buf.drop (cnt * 512)) s (by omega)]
      unfold ataWrite
      by_cases hs1 : start + cnt ≤ s ∧ s < start + cnt + (rem - cnt)
      · rw [if_pos hs1, if_pos (by omega : start ≤ s ∧ s < start + rem),
          List.drop_drop]
        rw [show cnt * 512 + (s - (start + cnt)) * 512 = (s - start) * 512
          from by omega]
      · rw [if_neg hs1]
        by_cases hs2 : start ≤ s ∧ s < start + cnt
        · rw [if_pos hs2, if_pos (by omega : start ≤ s ∧ s < start + rem)]
        · rw [if_neg hs2, if_neg (by omega : ¬(start ≤ s ∧ s < start + rem))]

/-- Reading `rem` sectors whose contents are the 512-byte slices of a
`rem*512`-byte buffer recovers the buffer. -/
theorem ataRead_slices (rem : Nat) :
    ∀ (d : Nat → List Nat) (start : Nat) (buf : List Nat),
      buf.length = rem * 512 →
      (∀ i, i < rem → d (start + i) = (buf.drop (i * 512)).take 512) →
      ataRead d start rem = buf := by
  induction rem with
  | zero =>
    intro d start buf hlen _
    have h0 : buf = [] := List.eq_nil_of_length_eq_zero (by omega)
    rw [h0]
    rfl
  | succ n ih =>
    intro d start buf hlen hs
    show d start ++ ataRead d (start + 1) n = buf
    have h0 : d start = buf.take 512 := by simpa using hs 0 (by omega)
    have h1 : ataRead d (start + 1) n = buf.drop 512 := by
      apply ih
      · rw [List.length_drop, hlen]
        omega
      · intro i hi
        have h2 := hs (i + 1) (by omega)
        rw [show start + 1 + i = start + (i + 1) from by omega, h2,
          List.drop_drop, show 512 + i * 512 = (i + 1) * 512 from by omega]
    rw [h0, h1, List.take_append_drop]

/-- A sector inside block `a`'s window determines the block number. -/
theorem window_div {a K s : Nat} (hK : 0 < K) (h1 : a * K ≤ s)
    (h2 : s < a * K + K) : s / K = a := by
  have h3 : s = K * a + (s - a * K) := by
    rw [Nat.mul_comm]
    omega
  rw [h3, Nat.mul_add_div hK, Nat.div_eq_of_lt (by omega)]
  omega

end LiteCore.BCache

namespace LiteCore.BCache

/-- The one-step equation of the flush loop. -/
theorem flushAux_cons (c : BlockCache) (e : CacheEntry)
    (l : List CacheEntry) (d : Nat → List Nat) :
    flushAux c (e :: l) d =
      if (e.valid && e.dirty) = true then
        (let r := flushAux c l (write_block_to_disk c d e.block_num e.data);
         ({ e with dirty := false } :: r.1, r.2))
      else
        (let r := flushAux c l d; (e :: r.1, r.2)) := rfl

/-- Flushing entries none of which covers sector `s` leaves `s`
unchanged. -/
theorem flushAux_not_covered (c : BlockCache) (l : List CacheEntry) :
    ∀ (d : Nat → List Nat) (s : Nat),
      (∀ e ∈ l, e.valid = true → e.dirty = true →
        ¬(e.block_num * sectorsPerBlock c ≤ s ∧
          s < e.block_num * sectorsPerBlock c + sectorsPerBlock c)) →
      (flushAux c l d).2 s = d s := by
  induction l with
  | nil =>
    intro d s _
    rfl
  | cons e rest ih =>
    intro d s h
    unfold flushAux
    by_cases hd : (e.valid && e.dirty) = true
    · rw [if_pos hd]
      show (flushAux c rest (write_block_to_disk c d e.block_num e.data)).2 s
        = d s
      have hvd : e.valid = true ∧ e.dirty = true := by simpa using hd
      rw [ih _ s (fun e2 he2 => h e2 (List.mem_cons_of_mem _ he2))]
      unfold write_block_to_disk
      rw [writeChunksAux_eq (sectorsPerBlock c) d
        (e.block_num * sectorsPerBlock c) (sectorsPerBlock c) e.data s
        (Nat.le_refl _)]
      rw [if_neg (h e (List.mem_cons_self ..) hvd.1 hvd.2)]
    · rw [if_neg hd]
      show (flushAux c rest d).2 s = d s
      exact ih d s (fun e2 he2 => h e2 (List.mem_cons_of_mem _ he2))

/-- The flush loop over an append: disks compose. -/
theorem flushAux_append_disk (c : BlockCache) (l1 : List CacheEntry) :
    ∀ (l2 : List CacheEntry) (d : Nat → List Nat),
      (flushAux c (l1 ++ l2) d).2 = (flushAux c l2 (flushAux c l1 d).2).2 := by
  induction l1 with
  | nil =>
    intro l2 d
    rfl
  | cons e rest ih =>
    intro l2 d
    rw [List.cons_append, flushAux_cons, flushAux_cons]
    by_cases hd : (e.valid && e.dirty) = true
    · rw [if_pos hd, if_pos hd]
      show (flushAux c (rest ++ l2)
          (write_block_to_disk c d e.block_num e.data)).2 =
        (flushAux c l2
          (flushAux c rest (write_block_to_disk c d e.block_num e.data)).2).2
      exact ih l2 _
    · rw [if_neg hd, if_neg hd]
      show (flushAux c (rest ++ l2) d).2 =
        (flushAux c l2 (flushAux c rest d).2).2
      exact ih l2 d

/-- After a flush, no entry is both valid and dirty. -/
theorem flushAux_clean (c : BlockCache) (l : List CacheEntry) :
    ∀ (d : Nat → List Nat) (e2 : CacheEntry), e2 ∈ (flushAux c l d).1 →
      (e2.valid && e2.dirty) = false := by
  induction l with
  | nil =>
    intro d e2 h
    exact absurd h (by simp [flushAux])
  | cons e rest ih =>
    intro d e2 h
    unfold flushAux at h
    by_cases hd : (e.valid && e.dirty) = true
    · rw [if_pos hd] at h
      dsimp only at h
      rcases List.mem_cons.mp h with h1 | h1
      · rw [h1]
        simp
      · exact ih _ e2 h1
    · rw [if_neg hd] at h
      dsimp only at h
      rcases List.mem_cons.mp h with h1 | h1
      · rw [h1]
        revert hd
        cases e.valid && e.dirty
        · intro _; rfl
        · intro hd; exact absurd rfl hd
      · exact ih _ e2 h1

/-- Flushing a list with no valid dirty entry changes nothing. -/
theorem flushAux_noop (c : BlockCache) (l : List CacheEntry) :
    ∀ (d : Nat → List Nat),
      (∀ e ∈ l, (e.valid && e.dirty) = false) →
      flushAux c l d = (l, d) := by
  induction l with
  | nil =>
    intro d _
    rfl
  | cons e rest ih =>
    intro d h
    unfold flushAux
    rw [if_neg (by rw [h e (List.mem_cons_self ..)]; exact Bool.false_ne_true)]
    dsimp only
    rw [ih d (fun e2 he2 => h e2 (List.mem_cons_of_mem _ he2))]

/-- find_lru_entry's scan returns an in-range index. -/
theorem findLruScan_lt (l : List CacheEntry) :
    ∀ (i0 oldest : Nat) (best : Option Nat) (r : Nat),
      (∀ bi, best = some bi → bi < i0) →
      findLruScan l i0 oldest best = some r → r < i0 + l.length := by
  induction l with
  | nil =>
    intro i0 oldest best r hb h
    unfold findLruScan at h
    have := hb r h
    simp only [List.length_nil]
    omega
  | cons e rest ih =>
    intro i0 oldest best r hb h
    unfold findLruScan at h
    by_cases hv : e.valid = false
    · rw [if_pos hv] at h
      have h1 := Option.some.inj h
      simp only [List.length_cons]
      omega
    · rw [if_neg hv] at h
      by_cases hl : e.last_used < oldest
      · rw [if_pos hl] at h
        have h2 := ih (i0 + 1) e.last_used (some i0) r
          (fun bi hbi => by have := Option.some.inj hbi; omega) h
        simp only [List.length_cons]
        omega
      · rw [if_neg hl] at h
        have h2 := ih (i0 + 1) oldest best r
          (fun bi hbi => by have := hb bi hbi; omega) h
        simp only [List.length_cons]
        omega

end LiteCore.BCache

namespace LiteCore.BCache

/-- C9: block-cache persistence round-trip. For any cache state whose
valid entries cache pairwise-distinct blocks (true of every reachable
cache state) over a block geometry of K ≥ 1 sectors per block, and any
block-sized buffer X: after `block_cache_write(b, X)` succeeds,
`block_cache_flush`, `block_cache_destroy` and a fresh
`block_cache_init` over the same device, the first
`block_cache_read(b)` succeeds, does not touch the disk, and returns
exactly X. The underlying sector device is modelled as returning what
was last written to it. -/
theorem claim9_persistence
    (c : BlockCache) (d : Nat → List Nat) (b : Nat) (X : List Nat)
    (K : Nat) (hK : c.block_size = 512 * K) (hKpos : 0 < K)
    (hX : X.length = c.block_size)
    (hdist : ∀ (j k : Nat) (hj : j < c.entries.length)
      (hk : k < c.entries.length), j ≠ k →
      (c.entries.get ⟨j, hj⟩).valid = true →
      (c.entries.get ⟨k, hk⟩).valid = true →
      (c.entries.get ⟨j, hj⟩).block_num ≠ (c.entries.get ⟨k, hk⟩).block_num)
    (c1 : BlockCache) (d1 : Nat → List Nat)
    (hw : block_cache_write c d b X = some (c1, d1))
    (drive2 n2 : Nat) (hn2 : 0 < n2) :
    ∃ c3,
      block_cache_read (block_cache_init drive2 c.block_size n2)
          (block_cache_destroy (block_cache_flush c1 d1).1
            (block_cache_flush c1 d1).2) b =
        some (c3,
          block_cache_destroy (block_cache_flush c1 d1).1
            (block_cache_flush c1 d1).2,
          X) := by
  obtain ⟨i, eb, hi, hent, hbn, hv, hdt, hdata, hothers, hbs1⟩ :
      ∃ (i : Nat) (eb : CacheEntry),
        i < c.entries.length ∧
        c1.entries = c.entries.set i eb ∧
        eb.block_num = b ∧ eb.valid = true ∧ eb.dirty = true ∧
        eb.data = X.take c.block_size ++
          (c.entries.getD i dfltEntry).data.drop c.block_size ∧
        (∀ (j : Nat) (hj : j < c.entries.length), j ≠ i →
          (c.entries.get ⟨j, hj⟩).valid = true →
          (c.entries.get ⟨j, hj⟩).block_num ≠ b) ∧
        c1.block_size = c.block_size := by
    unfold block_cache_write at hw
    rcases hhit : hitIdx c.entries b with _ | i
    · rw [hhit] at hw
      dsimp only at hw
      rcases hlru : find_lru_entry c with _ | i
      · rw [hlru] at hw
        exact absurd hw (by simp)
      · rw [hlru] at hw
        dsimp only at hw
        obtain ⟨hc1, hd1⟩ := Prod.mk.injEq .. ▸ Option.some.inj hw
        have hilen : i < c.entries.length := by
          have hb0 : ∀ bi : Nat, (none : Option Nat) = some bi → bi < 0 :=
            fun bi hbi => by cases hbi
          have := findLruScan_lt c.entries 0 4294967295 none i hb0
            (by unfold find_lru_entry at hlru; exact hlru)
          omega
        have hnone : ∀ (j : Nat) (hj : j < c.entries.length),
            (c.entries.get ⟨j, hj⟩).valid = true →
            (c.entries.get ⟨j, hj⟩).block_num ≠ b := by
          intro j hj hvj heq
          have hm := List.findIdx?_eq_none_iff.mp
            (by unfold hitIdx at hhit; exact hhit) _
            (List.get_mem c.entries j hj)
          rw [hvj, heq] at hm
          simp at hm
        subst hc1
        exact ⟨i, _, hilen, rfl, rfl, rfl, rfl, rfl,
          fun j hj _ hvj => hnone j hj hvj, rfl⟩
    · rw [hhit] at hw
      dsimp only at hw
      obtain ⟨hc1, hd1⟩ := Prod.mk.injEq .. ▸ Option.some.inj hw
      obtain ⟨hilen, hpred⟩ := Vfs.findIdx?_spec dfltEntry _ c.entries i
        (by unfold hitIdx at hhit; exact hhit)
      simp at hpred
      simp only [← List.getD_eq_getElem?_getD] at hpred
      have hgd : c.entries.getD i dfltEntry = c.entries.get ⟨i, hilen⟩ :=
        List.getD_eq_getElem c.entries dfltEntry hilen
      subst hc1
      refine ⟨i, _, hilen, rfl, ?_, ?_, rfl, rfl, ?_, rfl⟩
      · show (c.entries.getD i dfltEntry).block_num = b
        exact hpred.2
      · show (c.entries.getD i dfltEntry).valid = true
        exact hpred.1
      · intro j hj hne hvj
        have hq := hdist j i hj hilen hne hvj (by rw [← hgd]; exact hpred.1)
        rw [← hgd, hpred.2] at hq
        exact hq
  have hKc1 : sectorsPerBlock c1 = K := by
    unfold sectorsPerBlock
    rw [hbs1, hK]
    exact Nat.mul_div_cancel_left K (by omega)
  have hsplit : c1.entries = c.entries.take i ++ eb :: c.entries.drop (i + 1) := by
    rw [hent, List.set_eq_take_append_cons_drop, if_pos hi]
  have hd2 : ∀ (j : Nat), j < K →
      (block_cache_flush c1 d1).2 (b * K + j) = (X.drop (j * 512)).take 512 := by
    intro j hj
    show (flushAux c1 c1.entries d1).2 (b * K + j) = _
    rw [hsplit, flushAux_append_disk, flushAux_cons,
      if_pos (by rw [hv, hdt]; rfl)]
    show (flushAux c1 (c.entries.drop (i + 1))
        (write_block_to_disk c1 (flushAux c1 (c.entries.take i) d1).2
          eb.block_num eb.data)).2 (b * K + j) = _
    have hside : ∀ e2 ∈ c.entries.drop (i + 1), e2.valid = true →
        e2.dirty = true →
        ¬(e2.block_num * sectorsPerBlock c1 ≤ b * K + j ∧
          b * K + j < e2.block_num * sectorsPerBlock c1 + sectorsPerBlock c1) := by
      intro e2 he2 hv2 hdd hcov
      rw [hKc1] at hcov
      have hbeq : e2.block_num = b := by
        have e1 : (b * K + j) / K = b :=
          window_div hKpos (by omega) (by omega)
        have e2d : (b * K + j) / K = e2.block_num :=
          window_div hKpos hcov.1 hcov.2
        omega
      obtain ⟨⟨jj, hjj⟩, hje⟩ := List.mem_iff_get.mp he2
      have hj2 : i + 1 + jj < c.entries.length := by
        have hjj2 := hjj
        rw [List.length_drop] at hjj2
        omega
      have hje2 : c.entries.get ⟨i + 1 + jj, hj2⟩ = e2 := by
        rw [← hje]
        show c.entries[i + 1 + jj] = (c.entries.drop (i + 1))[jj]
        rw [List.getElem_drop]
      rw [← hje2] at hv2 hbeq
      exact hothers (i + 1 + jj) hj2 (by omega) hv2 hbeq
    rw [flushAux_not_covered c1 (c.entries.drop (i + 1)) _ _ hside]
    unfold write_block_to_disk
    rw [hKc1, hbn,
      writeChunksAux_eq K _ (b * K) K eb.data (b * K + j) (Nat.le_refl K),
      if_pos (by constructor <;> omega),
      show b * K + j - b * K = j from by omega,
      hdata]
    have hXt : X.take c.block_size = X := by
      rw [← hX, List.take_length]
    rw [hXt,
      List.drop_append_of_le_length (by rw [hX, hK]; omega),
      List.take_append_of_le_length (by rw [List.length_drop, hX, hK]; omega)]
  have hd3 : block_cache_destroy (block_cache_flush c1 d1).1
      (block_cache_flush c1 d1).2 = (block_cache_flush c1 d1).2 := by
    show (flushAux (block_cache_flush c1 d1).1
        ((block_cache_flush c1 d1).1).entries (block_cache_flush c1 d1).2).2 = _
    have hcl : ∀ e2 ∈ ((block_cache_flush c1 d1).1).entries,
        (e2.valid && e2.dirty) = false := by
      intro e2 he2
      have hre : ((block_cache_flush c1 d1).1).entries =
          (flushAux c1 c1.entries d1).1 := rfl
      rw [hre] at he2
      exact flushAux_clean c1 c1.entries d1 e2 he2
    rw [flushAux_noop _ _ _ hcl]
  obtain ⟨m, hm⟩ : ∃ m, n2 = m + 1 := ⟨n2 - 1, by omega⟩
  subst hm
  have hKI : sectorsPerBlock (block_cache_init drive2 c.block_size (m + 1)) = K := by
    show c.block_size / 512 = K
    rw [hK]
    exact Nat.mul_div_cancel_left K (by omega)
  have hhitI : hitIdx (block_cache_init drive2 c.block_size (m + 1)).entries b
      = none := by
    refine List.findIdx?_eq_none_iff.mpr ?_
    intro e2 he2
    have he3 : e2 = initEntry c.block_size := by
      have hre : (block_cache_init drive2 c.block_size (m + 1)).entries =
          List.replicate (m + 1) (initEntry c.block_size) := rfl
      rw [hre] at he2
      exact List.eq_of_mem_replicate he2
    rw [he3]
    rfl
  have hlruI : find_lru_entry (block_cache_init drive2 c.block_size (m + 1))
      = some 0 := by
    show findLruScan (List.replicate (m + 1) (initEntry c.block_size)) 0
        4294967295 none = some 0
    rw [List.replicate_succ]
    unfold findLruScan
    rw [if_pos (show (initEntry c.block_size).valid = false from rfl)]
  have hgetI : (block_cache_init drive2 c.block_size (m + 1)).entries.getD 0
      dfltEntry = initEntry c.block_size := by
    show (List.replicate (m + 1) (initEntry c.block_size)).getD 0 dfltEntry = _
    rw [List.replicate_succ]
    rfl
  rw [hd3]
  unfold block_cache_read
  rw [hhitI]
  dsimp only
  rw [hlruI]
  dsimp only
  rw [hgetI,
    show ((initEntry c.block_size).valid && (initEntry c.block_size).dirty)
      = false from rfl,
    if_neg Bool.false_ne_true]
  have hreadI : read_block_from_disk
      (block_cache_init drive2 c.block_size (m + 1))
      (block_cache_flush c1 d1).2 b = X := by
    show readChunksAux (block_cache_flush c1 d1).2
        (sectorsPerBlock (block_cache_init drive2 c.block_size (m + 1)))
        (b * sectorsPerBlock (block_cache_init drive2 c.block_size (m + 1)))
        (sectorsPerBlock (block_cache_init drive2 c.block_size (m + 1))) = X
    rw [hKI, readChunksAux_eq _ K (b * K) K (Nat.le_refl K)]
    exact ataRead_slices K _ (b * K) X (by rw [hX, hK, Nat.mul_comm])
      (fun jj hjj => hd2 jj hjj)
  rw [hreadI]
  have hbufI : (X ++ (initEntry c.block_size).data.drop c.block_size).take
      c.block_size = X := by
    rw [List.take_append_of_le_length (by rw [hX]),
      ← hX, List.take_length]
  rw [show (block_cache_init drive2 c.block_size (m + 1)).block_size
    = c.block_size from rfl]
  rw [hbufI]
  exact ⟨_, rfl⟩

end LiteCore.BCache

namespace LiteCore.BCache

/-- Concrete device: every sector initially zeroed. -/
def wDisk : Nat → List Nat := fun _ => List.replicate 512 0

/-- A fresh one-entry cache with 512-byte blocks on drive 0. -/
def wC : BlockCache := block_cache_init 0 512 1

/-- 512 bytes of 7s. -/
def wX : List Nat := List.replicate 512 7

/-- The cache after `block_cache_write(2, wX)` on `wC`: the single
(invalid) entry is filled with block 2's data, valid and dirty. -/
def wC1 : BlockCache where
  drive := 0
  block_size := 512
  num_entries := 1
  timestamp := 1
  hits := 0
  misses := 0
  entries := [{ block_num := 2
                last_used := 1
                dirty := true
                valid := true
                data := List.replicate 512 7 ++ List.replicate 4 0 }]

set_option maxRecDepth 40000 in
/-- C9 witness: the round-trip theorem applied at a concrete one-entry
cache, block 2 and a concrete 512-byte buffer. -/
theorem claim9_witness :
    ∃ c3,
      block_cache_read (block_cache_init 0 wC.block_size 1)
          (block_cache_destroy (block_cache_flush wC1 wDisk).1
            (block_cache_flush wC1 wDisk).2) 2 =
        some (c3,
          block_cache_destroy (block_cache_flush wC1 wDisk).1
            (block_cache_flush wC1 wDisk).2,
          wX) :=
  claim9_persistence wC wDisk 2 wX 1 rfl (by omega) rfl
    (by
      intro j k hj hk hne hv1 hv2
      have h1 : wC.entries.length = 1 := rfl
      rw [h1] at hj hk
      exact absurd (by omega) hne)
    wC1 wDisk rfl 0 1 (by omega)

end LiteCore.BCache

namespace LiteCore.Paging

def U64 : Nat := 18446744073709551616

/-- `x & ~(1ULL << 63)` for a 64-bit value: clear the NX bit. -/
def NXC (x : Nat) : Nat := x % 9223372036854775808

/-- `x & 0xFFFFFFFFFFFFF000ULL`: the entry's table/frame base. -/
def maskAddr (x : Nat) : Nat := x % U64 / 4096 * 4096

/-- `x & 0xFFFFFFFFFFE00000ULL`: a 2 MiB large page's base. -/
def maskLarge (x : Nat) : Nat := x % U64 / 2097152 * 2097152

/-- Page-table memory: physical table base → index → 64-bit entry. -/
structure PTMem where
  tables : Nat → Nat → Nat

/-- `table[idx] = v`. -/
def setEntry (m : PTMem) (t i v : Nat) : PTMem :=
  { tables := fun t2 i2 => if t2 = t ∧ i2 = i then v else m.tables t2 i2 }

/-- The zeroing loop over a freshly allocated table. -/
def zeroTable (m : PTMem) (t : Nat) : PTMem :=
  { tables := fun t2 i2 => if t2 = t then 0 else m.tables t2 i2 }

/-- The split loop of map_page_64:
`pt_split[i] = ((large_page_base + i*0x1000) & 0xFFFFFFFFFFFFF000) |
(large_page_flags & ~(1 << 7))` for i = 0..511.  For flags ≤ 0xFFF,
`f & ~(1 << 7)` is `f % 128 + f / 256 * 256`, and the OR of a
4096-aligned base with 12-bit flags is their sum. -/
def fillSplit (m : PTMem) (t base lflags : Nat) : PTMem :=
  { tables := fun t2 i2 =>
      if t2 = t then
        if i2 < 512 then
          maskAddr (base + i2 * 4096) + (lflags % 128 + lflags / 256 * 256)
        else m.tables t2 i2
      else m.tables t2 i2 }

/-- The check/create block of map_page_64 at the PML4 and PDPT levels:
a non-present entry gets a fresh zeroed table with
`(phys & 0xFFFFFFFFFFFFF000) | PRESENT | RW | USER` and NX cleared;
a present entry just gets NX cleared (written back).  Returns the
updated memory and `table[idx] & 0xFFFFFFFFFFFFF000`. -/
def ensureTable (m : PTMem) (tbase idx fresh : Nat) : PTMem × Nat :=
  if m.tables tbase idx % 2 = 0 then
    (setEntry (zeroTable m fresh) tbase idx (NXC (maskAddr fresh + 7)),
      maskAddr (NXC (maskAddr fresh + 7)))
  else
    (setEntry m tbase idx (NXC (m.tables tbase idx)),
      maskAddr (NXC (m.tables tbase idx)))

/-- The PD-level block of map_page_64: create a PT when not present;
split a 2 MiB large page (PS bit, bit 7) into a fresh PT via the split
loop and repoint the PD entry at it; else just clear NX. -/
def pdStep (m : PTMem) (pdBase pdIdx fresh : Nat) : PTMem × Nat :=
  if m.tables pdBase pdIdx % 2 = 0 then
    (setEntry (zeroTable m fresh) pdBase pdIdx (NXC (maskAddr fresh + 7)),
      maskAddr (NXC (maskAddr fresh + 7)))
  else if m.tables pdBase pdIdx / 128 % 2 = 1 then
    (setEntry (fillSplit m fresh (maskLarge (m.tables pdBase pdIdx))
        (m.tables pdBase pdIdx % 4096)) pdBase pdIdx
        (NXC (maskAddr fresh + 7)),
      maskAddr (NXC (maskAddr fresh + 7)))
  else
    (setEntry m pdBase pdIdx (NXC (m.tables pdBase pdIdx)),
      maskAddr (NXC (m.tables pdBase pdIdx)))

/-- `map_page_64(pml4_phys, phys, virt, flags)`.  Table access goes
through the physical bases (the phys/virt conversions of the kernel's
linear table mapping are modelled as the identity and as succeeding);
`alloc_page_table` is modelled by the fresh table bases fresh1..fresh3
(one per level that might allocate).  Index i of level shift `sh` is
`(virt >> sh) & 0x1FF = virt / 2^sh % 512`. -/
def map_page_64 (m : PTMem) (fresh1 fresh2 fresh3 : Nat)
    (pml4_phys phys virt flags0 : Nat) : PTMem :=
  match ensureTable m pml4_phys (virt / 2 ^ 39 % 512) fresh1 with
  | (m1, b2) =>
    match ensureTable m1 b2 (virt / 2 ^ 30 % 512) fresh2 with
    | (m2, b3) =>
      match pdStep m2 b3 (virt / 2 ^ 21 % 512) fresh3 with
      | (m3, ptb) =>
        setEntry m3 ptb (virt / 2 ^ 12 % 512)
          (NXC (maskAddr phys +
            (if flags0 % 2 = 0 then flags0 + 1 else flags0) % 4096))

/-- One step of the MMU walk: present check, then the next table base. -/
def nextTable (m : PTMem) (tbase virt sh : Nat) : Option Nat :=
  if m.tables tbase (virt / 2 ^ sh % 512) % 2 = 0 then none
  else some (maskAddr (m.tables tbase (virt / 2 ^ sh % 512)))

/-- The x86-64 4-level translation of `virt` under the PML4 at
`pml4_phys` (2 MiB large pages honoured at the PD level; 1 GiB pages
not used by this kernel). -/
def translate (m : PTMem) (pml4_phys virt : Nat) : Option Nat :=
  match nextTable m pml4_phys virt 39 with
  | none => none
  | some b2 =>
    match nextTable m b2 virt 30 with
    | none => none
    | some b3 =>
      if m.tables b3 (virt / 2 ^ 21 % 512) % 2 = 0 then none
      else if m.tables b3 (virt / 2 ^ 21 % 512) / 128 % 2 = 1 then
        some (maskLarge (m.tables b3 (virt / 2 ^ 21 % 512)) + virt % 2097152)
      else if m.tables (maskAddr (m.tables b3 (virt / 2 ^ 21 % 512)))
          (virt / 2 ^ 12 % 512) % 2 = 0 then none
      else
        some (maskAddr (m.tables (maskAddr (m.tables b3 (virt / 2 ^ 21 % 512)))
          (virt / 2 ^ 12 % 512)) + virt % 4096)

theorem setEntry_tables (m : PTMem) (t i v t2 i2 : Nat) :
    (setEntry m t i v).tables t2 i2 =
      if t2 = t ∧ i2 = i then v else m.tables t2 i2 := rfl

theorem fillSplit_tables (m : PTMem) (t base lflags t2 i2 : Nat) :
    (fillSplit m t base lflags).tables t2 i2 =
      if t2 = t then
        if i2 < 512 then
          maskAddr (base + i2 * 4096) + (lflags % 128 + lflags / 256 * 256)
        else m.tables t2 i2
      else m.tables t2 i2 := rfl

end LiteCore.Paging

namespace LiteCore.Paging

/-- C6: splitting a 2 MiB large page preserves translation. If the walk
for `virt` reaches a present PD entry with the PS bit set (over present
PML4/PDPT entries with NX clear, at pairwise-distinct table slots), and
the freshly allocated PT at `fresh3` is page-aligned, below the NX bit
and distinct from the tables on the walk, then after
`map_page_64(pml4, phys, virt, flags)`: (i) the page containing `virt`
translates to `phys` (its 4 KiB frame base, plus the page offset), and
(ii) every other of the 512 4 KiB pages of that 2 MiB region translates
to exactly the physical address it translated to before the call (the
large page's base plus the page's offset). -/
theorem claim6_split_preserves
    (s : PTMem) (pml4 phys virt flags0 fresh1 fresh2 fresh3 : Nat)
    (e1 e2 e3 B2 B3 : Nat)
    (he1 : s.tables pml4 (virt / 2 ^ 39 % 512) = e1)
    (hB2 : B2 = maskAddr e1)
    (he2 : s.tables B2 (virt / 2 ^ 30 % 512) = e2)
    (hB3 : B3 = maskAddr e2)
    (he3 : s.tables B3 (virt / 2 ^ 21 % 512) = e3)
    (he1p : e1 % 2 = 1) (he1x : e1 < 2 ^ 63)
    (he2p : e2 % 2 = 1) (he2x : e2 < 2 ^ 63)
    (he3p : e3 % 2 = 1) (hps : e3 / 128 % 2 = 1) (he3x : e3 < 2 ^ 64)
    (hf3al : fresh3 % 4096 = 0) (hf3x : fresh3 < 2 ^ 63)
    (hfP : fresh3 ≠ pml4) (hfB2 : fresh3 ≠ B2) (hfB3 : fresh3 ≠ B3)
    (hd12 : ¬(B2 = pml4 ∧ virt / 2 ^ 30 % 512 = virt / 2 ^ 39 % 512))
    (hd13 : ¬(B3 = pml4 ∧ virt / 2 ^ 21 % 512 = virt / 2 ^ 39 % 512))
    (hd23 : ¬(B3 = B2 ∧ virt / 2 ^ 21 % 512 = virt / 2 ^ 30 % 512))
    (hphys : phys < 2 ^ 63) :
    translate (map_page_64 s fresh1 fresh2 fresh3 pml4 phys virt flags0)
        pml4 virt = some (maskAddr phys + virt % 4096) ∧
    (∀ (j off : Nat), j < 512 → off < 4096 → j ≠ virt / 2 ^ 12 % 512 →
      translate (map_page_64 s fresh1 fresh2 fresh3 pml4 phys virt flags0)
          pml4 (virt / 2 ^ 21 * 2 ^ 21 + j * 4096 + off) =
        translate s pml4 (virt / 2 ^ 21 * 2 ^ 21 + j * 4096 + off) ∧
      translate s pml4 (virt / 2 ^ 21 * 2 ^ 21 + j * 4096 + off) =
        some (maskLarge e3 + (j * 4096 + off))) := by
  set i1 : Nat := virt / 2 ^ 39 % 512 with hi1
  set i2 : Nat := virt / 2 ^ 30 % 512 with hi2
  set i3 : Nat := virt / 2 ^ 21 % 512 with hi3
  set i4 : Nat := virt / 2 ^ 12 % 512 with hi4
  set F : Nat := if flags0 % 2 = 0 then flags0 + 1 else flags0 with hFdef
  set NEWE : Nat := NXC (maskAddr fresh3 + 7) with hNdef
  set PTE : Nat := NXC (maskAddr phys + F % 4096) with hPdef
  have hn1 : NXC e1 = e1 := by unfold NXC; omega
  have hn2 : NXC e2 = e2 := by unfold NXC; omega
  have hfr : maskAddr (NXC (maskAddr fresh3 + 7)) = fresh3 := by
    unfold NXC maskAddr U64
    omega
  have hF2 : F % 2 = 1 := by
    rw [hFdef]
    by_cases h : flags0 % 2 = 0
    · rw [if_pos h]; omega
    · rw [if_neg h]; omega
  have hs1 : ensureTable s pml4 i1 fresh1 = (setEntry s pml4 i1 e1, B2) := by
    unfold ensureTable
    rw [he1, if_neg (by omega), hn1, ← hB2]
  have hm1 : (setEntry s pml4 i1 e1).tables B2 i2 = e2 := by
    rw [setEntry_tables, if_neg hd12, he2]
  have hs2 : ensureTable (setEntry s pml4 i1 e1) B2 i2 fresh2 =
      (setEntry (setEntry s pml4 i1 e1) B2 i2 e2, B3) := by
    unfold ensureTable
    rw [hm1, if_neg (by omega), hn2, ← hB3]
  set M2 : PTMem := setEntry (setEntry s pml4 i1 e1) B2 i2 e2 with hM2
  have hm2 : M2.tables B3 i3 = e3 := by
    rw [hM2, setEntry_tables, if_neg hd23, setEntry_tables, if_neg hd13, he3]
  have hpd : pdStep M2 B3 i3 fresh3 =
      (setEntry (fillSplit M2 fresh3 (maskLarge e3) (e3 % 4096)) B3 i3 NEWE,
        fresh3) := by
    unfold pdStep
    rw [hm2, if_neg (by omega), if_pos hps, hfr, ← hNdef]
  have hmap : map_page_64 s fresh1 fresh2 fresh3 pml4 phys virt flags0 =
      setEntry (setEntry (fillSplit M2 fresh3 (maskLarge e3) (e3 % 4096))
        B3 i3 NEWE) fresh3 i4 PTE := by
    unfold map_page_64
    rw [← hi1, ← hi2, ← hi3, ← hi4, ← hFdef, ← hPdef, hs1]
    dsimp only
    rw [hs2]
    dsimp only
    rw [hpd]
  rw [hmap]
  set M5 : PTMem := setEntry (setEntry (fillSplit M2 fresh3 (maskLarge e3)
    (e3 % 4096)) B3 i3 NEWE) fresh3 i4 PTE with hM5
  have l1 : M5.tables pml4 i1 = e1 := by
    rw [hM5, setEntry_tables, if_neg (fun hc => hfP hc.1.symm),
      setEntry_tables, if_neg (fun hc => hd13 ⟨hc.1.symm, hc.2.symm⟩),
      fillSplit_tables, if_neg (fun hc => hfP hc.symm),
      hM2, setEntry_tables, if_neg (fun hc => hd12 ⟨hc.1.symm, hc.2.symm⟩),
      setEntry_tables, if_pos ⟨rfl, rfl⟩]
  have l2 : M5.tables B2 i2 = e2 := by
    rw [hM5, setEntry_tables, if_neg (fun hc => hfB2 hc.1.symm),
      setEntry_tables, if_neg (fun hc => hd23 ⟨hc.1.symm, hc.2.symm⟩),
      fillSplit_tables, if_neg (fun hc => hfB2 hc.symm),
      hM2, setEntry_tables, if_pos ⟨rfl, rfl⟩]
  have l3 : M5.tables B3 i3 = NEWE := by
    rw [hM5, setEntry_tables, if_neg (fun hc => hfB3 hc.1.symm),
      setEntry_tables, if_pos ⟨rfl, rfl⟩]
  have l4 : M5.tables fresh3 i4 = PTE := by
    rw [hM5, setEntry_tables, if_pos ⟨rfl, rfl⟩]
  have hNp : NEWE % 2 = 1 := by
    rw [hNdef]
    unfold NXC maskAddr U64
    omega
  have hNps : NEWE / 128 % 2 = 0 := by
    rw [hNdef]
    unfold NXC maskAddr U64
    omega
  have hNm : maskAddr NEWE = fresh3 := by
    rw [hNdef]
    exact hfr
  have hPp : PTE % 2 = 1 := by
    rw [hPdef]
    unfold NXC maskAddr U64
    omega
  have hPm : maskAddr PTE = maskAddr phys := by
    rw [hPdef]
    unfold NXC maskAddr U64
    omega
  constructor
  · unfold translate nextTable
    rw [← hi1, ← hi2, ← hi3, ← hi4, l1, if_neg (by omega)]
    dsimp only
    rw [← hB2, l2, if_neg (by omega)]
    dsimp only
    rw [← hB3, l3, if_neg (by omega), if_neg (by omega), hNm, l4,
      if_neg (by omega), hPm]
  · intro j off hj hoff hne
    set v2 : Nat := virt / 2 ^ 21 * 2 ^ 21 + j * 4096 + off with hv2
    have hx1 : v2 / 2 ^ 39 % 512 = i1 := by rw [hv2, hi1]; omega
    have hx2 : v2 / 2 ^ 30 % 512 = i2 := by rw [hv2, hi2]; omega
    have hx3 : v2 / 2 ^ 21 % 512 = i3 := by rw [hv2, hi3]; omega
    have hx4 : v2 / 2 ^ 12 % 512 = j := by rw [hv2]; omega
    have hpre : translate s pml4 v2 = some (maskLarge e3 + (j * 4096 + off)) := by
      unfold translate nextTable
      rw [hx1, hx2, hx3, he1, if_neg (by omega)]
      dsimp only
      rw [← hB2, he2, if_neg (by omega)]
      dsimp only
      rw [← hB3, he3, if_neg (by omega), if_pos hps,
        show v2 % 2097152 = j * 4096 + off from by rw [hv2]; omega]
    have l5 : M5.tables fresh3 j =
        maskAddr (maskLarge e3 + j * 4096) +
          (e3 % 4096 % 128 + e3 % 4096 / 256 * 256) := by
      rw [hM5, setEntry_tables, if_neg (fun hc => hne hc.2),
        setEntry_tables, if_neg (fun hc => hfB3 hc.1),
        fillSplit_tables, if_pos rfl, if_pos hj]
    have hpost : translate M5 pml4 v2 =
        some (maskLarge e3 + (j * 4096 + off)) := by
      unfold translate nextTable
      rw [hx1, hx2, hx3, hx4, l1, if_neg (by omega)]
      dsimp only
      rw [← hB2, l2, if_neg (by omega)]
      dsimp only
      rw [← hB3, l3, if_neg (by omega), if_neg (by omega), hNm, l5,
        if_neg (by unfold maskAddr maskLarge U64; omega)]
      have hfin : maskAddr (maskAddr (maskLarge e3 + j * 4096) +
          (e3 % 4096 % 128 + e3 % 4096 / 256 * 256)) =
          maskLarge e3 + j * 4096 := by
        unfold maskAddr maskLarge U64
        omega
      rw [hfin, show v2 % 4096 = off from by rw [hv2]; omega]
      rw [Nat.add_assoc]
    exact ⟨hpost.trans hpre.symm, hpre⟩

end LiteCore.Paging

namespace LiteCore.Paging

/-- A concrete page-table memory: PML4 at 0x1000 whose entry 0 points
at a PDPT at 0x2000, whose entry 0 points at a PD at 0x3000, whose
entry 0 is the present 2 MiB large page at 0x200000
(flags P|RW|PS = 0x83). -/
def cx6S : PTMem where
  tables := fun t i =>
    if t = 4096 ∧ i = 0 then 0x2003
    else if t = 0x2000 ∧ i = 0 then 0x3003
    else if t = 0x3000 ∧ i = 0 then 0x200083
    else 0

/-- C6 witness: the split-preservation theorem applied at the concrete
table memory `cx6S`, mapping phys 0x5000 at virt 0 (inside the 2 MiB
large page at 0x200000) with a fresh PT at 0x4000; the neighbouring
page j = 1 (offset 5) still translates to 0x201005. -/
theorem claim6_witness :
    translate (map_page_64 cx6S 0 0 0x4000 4096 0x5000 0 7) 4096 0 =
      some (maskAddr 0x5000 + 0 % 4096) ∧
    (translate (map_page_64 cx6S 0 0 0x4000 4096 0x5000 0 7) 4096
        (0 / 2 ^ 21 * 2 ^ 21 + 1 * 4096 + 5) =
      translate cx6S 4096 (0 / 2 ^ 21 * 2 ^ 21 + 1 * 4096 + 5) ∧
    translate cx6S 4096 (0 / 2 ^ 21 * 2 ^ 21 + 1 * 4096 + 5) =
      some (maskLarge 0x200083 + (1 * 4096 + 5))) :=
  have h := claim6_split_preserves cx6S 4096 0x5000 0 7 0 0 0x4000
    0x2003 0x3003 0x200083 0x2000 0x3000
    (by decide) (by decide) (by decide) (by decide) (by decide)
    (by decide) (by decide) (by decide) (by decide) (by decide)
    (by decide) (by decide) (by decide) (by decide) (by decide)
    (by decide) (by decide) (by decide) (by decide) (by decide)
    (by decide)
  ⟨h.1, h.2 1 5 (by decide) (by decide) (by decide)⟩

end LiteCore.Paging

namespace LiteCore.Fat16

/-- struct fat16_super (in-memory image mode; the byte image itself is
passed separately as a function from offset to byte). -/
structure Super where
  bytes_per_sector : Nat
  sectors_per_cluster : Nat
  reserved_sectors : Nat
  num_fats : Nat
  fat_size_sectors : Nat
  max_root_entries : Nat
  root_dir_sector : Nat
  first_data_sector : Nat
  total_sectors : Nat
  image_size : Nat

def fat_offset_bytes (sb : Super) : Nat :=
  sb.reserved_sectors * sb.bytes_per_sector

def le16at (img : Nat → Nat) (off : Nat) : Nat :=
  img off % 256 + 256 * (img (off + 1) % 256)

def le32at (img : Nat → Nat) (off : Nat) : Nat :=
  img off % 256 + 256 * (img (off + 1) % 256) +
    65536 * (img (off + 2) % 256) + 16777216 * (img (off + 3) % 256)

/-- The byte-copy loop of fat16_write_bytes (image mode): bytes
[off, off+len) become the source bytes (stored as uint8). -/
def wrBytes (img : Nat → Nat) (off : Nat) (src : Nat → Nat) (len : Nat) :
    Nat → Nat :=
  fun a => if off ≤ a ∧ a < off + len then src (a - off) % 256 else img a

/-- fat16_write_bytes (image mode): bounds-checked write. -/
def fat16_write_bytes (sb : Super) (img : Nat → Nat) (off : Nat)
    (src : Nat → Nat) (len : Nat) : Option (Nat → Nat) :=
  if off + len ≤ sb.image_size then some (wrBytes img off src len) else none

/-- A `(void)fat16_write_bytes(...)` call: the result is ignored, a
failing write leaves the image unchanged. -/
def applyWr (sb : Super) (img : Nat → Nat) (off : Nat) (src : Nat → Nat)
    (len : Nat) : Nat → Nat :=
  match fat16_write_bytes sb img off src len with
  | some img2 => img2
  | none => img

/-- fat_read_entry: 16-bit FAT entry of `cluster` from FAT copy 0; a
failing (out-of-bounds) read yields 0xFFFF. -/
def fat_read_entry (sb : Super) (img : Nat → Nat) (cluster : Nat) : Nat :=
  if fat_offset_bytes sb + cluster * 2 + 2 ≤ sb.image_size then
    le16at img (fat_offset_bytes sb + cluster * 2)
  else 0xFFFF

/-- The 2-byte little-endian buffer fat_write_entry prepares. -/
def bytes2 (v : Nat) : Nat → Nat :=
  fun i => if i = 0 then v % 256 else v / 256 % 256

/-- fat_write_entry's loop over the `num_fats` FAT copies (copy f at
`off + f * fat_size_sectors * bytes_per_sector`), in ascending order;
each write's result is ignored. -/
def fat_write_entry_aux (sb : Super) (img : Nat → Nat) (off v : Nat) :
    Nat → (Nat → Nat)
  | 0 => img
  | Nat.succ f =>
    applyWr sb (fat_write_entry_aux sb img off v f)
      (off + f * (sb.fat_size_sectors * sb.bytes_per_sector)) (bytes2 v) 2

def fat_write_entry (sb : Super) (img : Nat → Nat) (cluster v : Nat) :
    Nat → Nat :=
  fat_write_entry_aux sb img (fat_offset_bytes sb + cluster * 2) v sb.num_fats

def totalClusters (sb : Super) : Nat :=
  (sb.total_sectors - sb.first_data_sector) / sb.sectors_per_cluster

/-- allocate_chain's scan: clusters c = 2, 3, ... (fuel = total
cluster count) collecting the first `need` clusters whose FAT entry
is 0. -/
def scanFree (sb : Super) (img : Nat → Nat) : Nat → Nat → Nat → List Nat
  | _, 0, _ => []
  | _, _, 0 => []
  | c, Nat.succ fuel, Nat.succ need =>
    if fat_read_entry sb img c = 0 then
      c :: scanFree sb img (c + 1) fuel need
    else scanFree sb img (c + 1) fuel (need + 1)

/-- allocate_chain's link-writing loop: each cluster's FAT entry points
to the next, the last gets 0xFFFF. -/
def writeChain (sb : Super) : (Nat → Nat) → List Nat → (Nat → Nat)
  | img, [] => img
  | img, [c] => fat_write_entry sb img c 0xFFFF
  | img, c :: c2 :: rest => writeChain sb (fat_write_entry sb img c c2) (c2 :: rest)

/-- allocate_chain (kmalloc of the temporary list modelled as
succeeding): scan for `n` free clusters, link them, return the first. -/
def allocate_chain (sb : Super) (img : Nat → Nat) (n : Nat) :
    Option (Nat × (Nat → Nat)) :=
  if n = 0 then none
  else
    match scanFree sb img 2 (totalClusters sb) n with
    | [] => none
    | c0 :: rest =>
      if (c0 :: rest).length < n then none
      else some (c0, writeChain sb img (c0 :: rest))

/-- ASCII uppercase conversion of make_shortname. -/
def upChar (c : Nat) : Nat := if 97 ≤ c ∧ c ≤ 122 then c - 32 else c

/-- make_shortname's base-name loop: up to 8 chars until a '.' (46);
returns the collected (uppercased) chars and the remaining input. -/
def snBase : List Nat → Nat → (List Nat × List Nat)
  | [], _ => ([], [])
  | c :: rest, 0 => ([], c :: rest)
  | c :: rest, Nat.succ k =>
    if c = 46 then ([], c :: rest)
    else
      ((upChar c :: (snBase rest k).1), (snBase rest k).2)

/-- make_shortname: 8-byte base (space-padded), then after an optional
'.' up to 3 extension chars (space-padded), all uppercased. -/
def shortname (name : List Nat) : List Nat :=
  let b := snBase name 8
  let afterDot := match b.2 with
    | 46 :: rest => rest
    | l => l
  let ext := (afterDot.take 3).map upChar
  (b.1 ++ List.replicate (8 - b.1.length) 32) ++
    (ext ++ List.replicate (3 - ext.length) 32)

/-- The 11-byte name comparison of the directory scan. -/
def matchAt (img : Nat → Nat) (off : Nat) (sn : List Nat) : Bool :=
  (List.range 11).all fun i => img (off + i) == sn.getD i 0

/-- Result of a directory scan: a matching entry at an offset; the
0x00 end marker (whose offset is the free slot); the end of the
directory with the first 0xE5 slot if any; or a read error. -/
inductive ScanRes where
  | found : Nat → ScanRes
  | endFree : Nat → ScanRes
  | notFound : Option Nat → ScanRes
  | err : ScanRes
deriving DecidableEq

/-- The root-directory scan of fat16_find_root_entry_bytes, flattened
over entry index k (the root region is contiguous, entry k lives at
`root_dir_sector * bytes_per_sector + k * 32`): 0x00 ends the scan
(that slot is the free slot), 0xE5 entries are remembered as the first
free slot, volume labels (attr & 0x08) are skipped, and the first
11-byte shortname match wins. -/
def scanRootAux (sb : Super) (img : Nat → Nat) (sn : List Nat) :
    Nat → Nat → Option Nat → ScanRes
  | _, 0, ff => ScanRes.notFound ff
  | k, Nat.succ fuel, ff =>
    if img (sb.root_dir_sector * sb.bytes_per_sector + k * 32) = 0 then
      ScanRes.endFree (sb.root_dir_sector * sb.bytes_per_sector + k * 32)
    else if img (sb.root_dir_sector * sb.bytes_per_sector + k * 32) = 0xE5 then
      scanRootAux sb img sn (k + 1) fuel
        (match ff with
         | none => some (sb.root_dir_sector * sb.bytes_per_sector + k * 32)
         | some f => some f)
    else if img (sb.root_dir_sector * sb.bytes_per_sector + k * 32 + 11)
        / 8 % 2 = 1 then
      scanRootAux sb img sn (k + 1) fuel ff
    else if matchAt img (sb.root_dir_sector * sb.bytes_per_sector + k * 32) sn
        then
      ScanRes.found (sb.root_dir_sector * sb.bytes_per_sector + k * 32)
    else scanRootAux sb img sn (k + 1) fuel ff

def rootSectors (sb : Super) : Nat :=
  (sb.max_root_entries + sb.bytes_per_sector / 32 - 1) /
    (sb.bytes_per_sector / 32)

/-- fat16_find_root_entry_bytes: scratch-size check, then the scan over
all root-directory sectors (the per-sector in-bounds read checks are
folded into one whole-region check; they coincide on in-bounds
superblocks). -/
def fat16_find_root_entry (sb : Super) (img : Nat → Nat) (name : List Nat) :
    ScanRes :=
  if 4096 < sb.bytes_per_sector then ScanRes.err
  else if sb.root_dir_sector * sb.bytes_per_sector +
      rootSectors sb * sb.bytes_per_sector ≤ sb.image_size then
    scanRootAux sb img (shortname name) 0
      (rootSectors sb * (sb.bytes_per_sector / 32)) none
  else ScanRes.err

/-- fat16_resolve_path_bytes, restricted to root-level paths: leading
slashes are skipped and a single component (truncated to 12 chars, as
the C `comp[13]` buffer does) is looked up in the root directory.
Paths with further components (directory descent) are out of the
modelled scope and yield err. -/
def fat16_resolve_path (sb : Super) (img : Nat → Nat) (path : List Nat) :
    ScanRes :=
  match ((path.dropWhile (fun c => c = 47)).takeWhile
      (fun c => c ≠ 47)).take 12 with
  | [] => ScanRes.err
  | comp =>
    if ((path.dropWhile (fun c => c = 47)).drop comp.length).dropWhile
        (fun c => c = 47) = [] then
      fat16_find_root_entry sb img comp
    else ScanRes.err

end LiteCore.Fat16

namespace LiteCore.Fat16

/-- free_chain: walk the chain writing 0 into each entry (fuel bounds
the walk; the C loop does not terminate on a cyclic chain). -/
def free_chain (sb : Super) : (Nat → Nat) → Nat → Nat → (Nat → Nat)
  | img, 0, _ => img
  | img, Nat.succ fuel, cur =>
    if 2 ≤ cur ∧ cur < 0xFFF8 then
      if fat_read_entry sb img cur = 0 ∨
          0xFFF8 ≤ fat_read_entry sb img cur then
        fat_write_entry sb img cur 0
      else
        free_chain sb (fat_write_entry sb img cur 0) fuel
          (fat_read_entry sb img cur)
    else img

/-- The cluster staging buffer of fat16_write_file: `to_copy` source
bytes, zero-padded to the cluster size. -/
def clusterSrc (data : Nat → Nat) (written to_copy : Nat) : Nat → Nat :=
  fun i => if i < to_copy then data (written + i) else 0

/-- fat16_write_file's data loop: follow the (freshly allocated) chain,
writing min(remaining, cluster_bytes) source bytes (zero-padded) into
each cluster's sectors; the per-sector bounds checks are folded into a
per-cluster check (the sector writes cover the cluster contiguously).
Fuel-out (cyclic chain) is modelled as failure. -/
def writeLoop (sb : Super) :
    (Nat → Nat) → Nat → Nat → Nat → Nat → (Nat → Nat) → Option (Nat → Nat)
  | _, 0, _, _, _, _ => none
  | img, Nat.succ fuel, cur, written, remaining, data =>
    if 2 ≤ cur ∧ cur < 0xFFF8 ∧ 0 < remaining then
      if (sb.first_data_sector + (cur - 2) * sb.sectors_per_cluster) *
          sb.bytes_per_sector +
          sb.bytes_per_sector * sb.sectors_per_cluster ≤ sb.image_size then
        if fat_read_entry sb
            (wrBytes img ((sb.first_data_sector +
                (cur - 2) * sb.sectors_per_cluster) * sb.bytes_per_sector)
              (clusterSrc data written
                (min remaining (sb.bytes_per_sector * sb.sectors_per_cluster)))
              (sb.bytes_per_sector * sb.sectors_per_cluster)) cur = 0 ∨
            0xFFF8 ≤ fat_read_entry sb
              (wrBytes img ((sb.first_data_sector +
                  (cur - 2) * sb.sectors_per_cluster) * sb.bytes_per_sector)
                (clusterSrc data written
                  (min remaining
                    (sb.bytes_per_sector * sb.sectors_per_cluster)))
                (sb.bytes_per_sector * sb.sectors_per_cluster)) cur then
          some (wrBytes img ((sb.first_data_sector +
              (cur - 2) * sb.sectors_per_cluster) * sb.bytes_per_sector)
            (clusterSrc data written
              (min remaining (sb.bytes_per_sector * sb.sectors_per_cluster)))
            (sb.bytes_per_sector * sb.sectors_per_cluster))
        else
          writeLoop sb
            (wrBytes img ((sb.first_data_sector +
                (cur - 2) * sb.sectors_per_cluster) * sb.bytes_per_sector)
              (clusterSrc data written
                (min remaining (sb.bytes_per_sector * sb.sectors_per_cluster)))
              (sb.bytes_per_sector * sb.sectors_per_cluster))
            fuel
            (fat_read_entry sb
              (wrBytes img ((sb.first_data_sector +
                  (cur - 2) * sb.sectors_per_cluster) * sb.bytes_per_sector)
                (clusterSrc data written
                  (min remaining
                    (sb.bytes_per_sector * sb.sectors_per_cluster)))
                (sb.bytes_per_sector * sb.sectors_per_cluster)) cur)
            (written +
              min remaining (sb.bytes_per_sector * sb.sectors_per_cluster))
            (remaining -
              min remaining (sb.bytes_per_sector * sb.sectors_per_cluster))
            data
      else none
    else some img

/-- A fresh directory entry as fat16_write_file builds it: shortname,
attr 0x20, start cluster (LE16 at 26) and size (LE32 at 28). -/
def entryBytes (sn : List Nat) (start size : Nat) : Nat → Nat :=
  fun i =>
    if i < 11 then sn.getD i 0
    else if i = 11 then 0x20
    else if i = 26 then start % 256
    else if i = 27 then start / 256 % 256
    else if i = 28 then size % 256
    else if i = 29 then size / 256 % 256
    else if i = 30 then size / 65536 % 256
    else if i = 31 then size / 16777216 % 256
    else 0

/-- An existing directory entry (read from the image at `entOff` at
resolve time) with the start-cluster and size fields replaced. -/
def entryBytesOld (img : Nat → Nat) (entOff start size : Nat) : Nat → Nat :=
  fun i =>
    if i = 26 then start % 256
    else if i = 27 then start / 256 % 256
    else if i = 28 then size % 256
    else if i = 29 then size / 256 % 256
    else if i = 30 then size / 65536 % 256
    else if i = 31 then size / 16777216 % 256
    else if i < 32 then img (entOff + i)
    else 0

/-- fat16_write_file (image mode, root-level paths): resolve; free an
existing file's chain; for len = 0 just write a zeroed entry; else
allocate a chain, write the data through it, and write the directory
entry (start cluster + size).  NOTE (as in the C source): the entry
template for a NEW file is built by make_shortname from the WHOLE path
string, not from the resolved component. -/
def fat16_write_file (sb : Super) (img : Nat → Nat) (path : List Nat)
    (data : Nat → Nat) (len : Nat) : Option (Nat → Nat) :=
  match fat16_resolve_path sb img path with
  | ScanRes.err => none
  | ScanRes.found entOff =>
    let img1 := if 2 ≤ le16at img (entOff + 26) then
        free_chain sb img 65536 (le16at img (entOff + 26))
      else img
    if len = 0 then
      some (applyWr sb img1 entOff (entryBytesOld img entOff 0 0) 32)
    else
      match allocate_chain sb img1
          ((len + sb.bytes_per_sector * sb.sectors_per_cluster - 1) /
            (sb.bytes_per_sector * sb.sectors_per_cluster)) with
      | none => none
      | some (start, img2) =>
        if 4096 < sb.bytes_per_sector * sb.sectors_per_cluster then none
        else
          match writeLoop sb img2 (len + 1) start 0 len data with
          | none => none
          | some img3 =>
            some (applyWr sb img3 entOff
              (entryBytesOld img entOff start len) 32)
  | ScanRes.endFree freeOff =>
    if len = 0 then
      some (applyWr sb img freeOff (entryBytes (shortname path) 0 0) 32)
    else
      match allocate_chain sb img
          ((len + sb.bytes_per_sector * sb.sectors_per_cluster - 1) /
            (sb.bytes_per_sector * sb.sectors_per_cluster)) with
      | none => none
      | some (start, img2) =>
        if 4096 < sb.bytes_per_sector * sb.sectors_per_cluster then none
        else
          match writeLoop sb img2 (len + 1) start 0 len data with
          | none => none
          | some img3 =>
            some (applyWr sb img3 freeOff
              (entryBytes (shortname path) start len) 32)
  | ScanRes.notFound ff =>
    match ff with
    | none => none
    | some freeOff =>
      if len = 0 then
        some (applyWr sb img freeOff (entryBytes (shortname path) 0 0) 32)
      else
        match allocate_chain sb img
            ((len + sb.bytes_per_sector * sb.sectors_per_cluster - 1) /
              (sb.bytes_per_sector * sb.sectors_per_cluster)) with
        | none => none
        | some (start, img2) =>
          if 4096 < sb.bytes_per_sector * sb.sectors_per_cluster then none
          else
            match writeLoop sb img2 (len + 1) start 0 len data with
            | none => none
            | some img3 =>
              some (applyWr sb img3 freeOff
                (entryBytes (shortname path) start len) 32)

/-- fat16_read_file's cluster loop: follow the chain, copying
min(remaining, cluster_bytes) bytes of each cluster into the output
buffer.  Returns (bytes_read, buffer). -/
def readLoop (sb : Super) (img : Nat → Nat) :
    Nat → Nat → Nat → Nat → (Nat → Nat) → Option (Nat × (Nat → Nat))
  | 0, _, _, _, _ => none
  | Nat.succ fuel, cur, read, btr, buf =>
    if 2 ≤ cur ∧ cur < 0xFFF8 ∧ read < btr then
      if (sb.first_data_sector + (cur - 2) * sb.sectors_per_cluster) *
          sb.bytes_per_sector +
          sb.bytes_per_sector * sb.sectors_per_cluster ≤ sb.image_size then
        if fat_read_entry sb img cur = 0 ∨
            0xFFF8 ≤ fat_read_entry sb img cur then
          some (read + min (btr - read)
              (sb.bytes_per_sector * sb.sectors_per_cluster),
            fun i =>
              if read ≤ i ∧ i < read + min (btr - read)
                  (sb.bytes_per_sector * sb.sectors_per_cluster) then
                img ((sb.first_data_sector +
                  (cur - 2) * sb.sectors_per_cluster) * sb.bytes_per_sector +
                  (i - read))
              else buf i)
        else
          readLoop sb img fuel (fat_read_entry sb img cur)
            (read + min (btr - read)
              (sb.bytes_per_sector * sb.sectors_per_cluster))
            btr
            (fun i =>
              if read ≤ i ∧ i < read + min (btr - read)
                  (sb.bytes_per_sector * sb.sectors_per_cluster) then
                img ((sb.first_data_sector +
                  (cur - 2) * sb.sectors_per_cluster) * sb.bytes_per_sector +
                  (i - read))
              else buf i)
      else none
    else some (read, buf)

/-- fat16_read_file (image mode, root-level paths): resolve, then read
min(file_size, len) bytes along the chain.  Returns (out_len, buffer);
none is the C failure returns (-1, -2, -3). -/
def fat16_read_file (sb : Super) (img : Nat → Nat) (path : List Nat)
    (len : Nat) : Option (Nat × (Nat → Nat)) :=
  match fat16_resolve_path sb img path with
  | ScanRes.found entOff =>
    if le32at img (entOff + 28) = 0 then some (0, fun _ => 0)
    else if le16at img (entOff + 26) < 2 then none
    else if 4096 < sb.bytes_per_sector * sb.sectors_per_cluster then none
    else
      readLoop sb img (min (le32at img (entOff + 28)) len + 1)
        (le16at img (entOff + 26)) 0 (min (le32at img (entOff + 28)) len)
        (fun _ => 0)
  | _ => none

/-- fat16_get_file_size (image mode, root-level paths). -/
def fat16_get_file_size (sb : Super) (img : Nat → Nat) (path : List Nat) :
    Option Nat :=
  match fat16_resolve_path sb img path with
  | ScanRes.found entOff => some (le32at img (entOff + 28))
  | _ => none

end LiteCore.Fat16

namespace LiteCore.Fat16

/-- A small mounted FAT16 geometry: 512-byte sectors, 1 sector per
cluster, 1 reserved sector, one 1-sector FAT, a 16-entry (1-sector)
root directory at sector 2, data from sector 3, 8 sectors total. -/
def cx3Sb : Super where
  bytes_per_sector := 512
  sectors_per_cluster := 1
  reserved_sectors := 1
  num_fats := 1
  fat_size_sectors := 1
  max_root_entries := 16
  root_dir_sector := 2
  first_data_sector := 3
  total_sectors := 8
  image_size := 4096

/-- A freshly formatted image: FAT free, root directory empty. -/
def cx3Img0 : Nat → Nat := fun _ => 0

/-- The path "/A". -/
def cx3PathSlash : List Nat := [47, 65]

/-- The path "A". -/
def cx3PathA : List Nat := [65]

/-- One data byte 'A' (65). -/
def cx3Data : Nat → Nat := fun _ => 65

/-- The image after fat16_write_file("/A", data, 1). -/
def cx3Img1 : Nat → Nat :=
  (fat16_write_file cx3Sb cx3Img0 cx3PathSlash cx3Data 1).getD (fun _ => 0)

/-- The image after fat16_write_file("A", data, 1). -/
def cx3Img1b : Nat → Nat :=
  (fat16_write_file cx3Sb cx3Img0 cx3PathA cx3Data 1).getD (fun _ => 0)

/-- C3 refuted: the FAT16 write/read round-trip fails for paths with a
leading '/'.  fat16_write_file("/A", data, 1) on a fresh image SUCCEEDS
(a fresh entry is created whose shortname is built by make_shortname
from the WHOLE path "/A", i.e. "/A<spaces>"), but the subsequent
fat16_read_file("/A", buf, 1) and fat16_get_file_size("/A") resolve the
path to the component "A", search the root directory for
"A<spaces>", find nothing and FAIL — no data and no size come back.
As a control, the same write through the path "A" (no leading slash)
round-trips: read returns 1 byte equal to the written byte 65 and
get_file_size reports 1. -/
theorem claim3_roundtrip_refuted :
    (fat16_write_file cx3Sb cx3Img0 cx3PathSlash cx3Data 1).isSome = true ∧
    (fat16_read_file cx3Sb cx3Img1 cx3PathSlash 1).isNone = true ∧
    fat16_get_file_size cx3Sb cx3Img1 cx3PathSlash = none ∧
    (fat16_write_file cx3Sb cx3Img0 cx3PathA cx3Data 1).isSome = true ∧
    (fat16_read_file cx3Sb cx3Img1b cx3PathA 1).map
      (fun r => (r.1, r.2 0)) = some (1, 65) ∧
    fat16_get_file_size cx3Sb cx3Img1b cx3PathA = some 1 := by
  refine ⟨by decide, by decide, by decide, by decide, by decide, by decide⟩

end LiteCore.Fat16
